import Mathlib

/-!
# Verification of the schema-salad document binder

A shallow embedding of the Rust schema-salad binder
(`src/schema_salad/rust`): the scope/identifier registry (`de/seed.rs`),
the dynamic value model (`core/any`), the collection normalizers
(`private/de/list.rs` and the salad-core `serde/de/list.rs`), the
discriminated-union resolver and the record binder produced by the code
generator (`macro/src/codegen/enums.rs`, `macro/src/codegen/structs.rs`).

Modelling conventions:
* serde's buffered `Content` tree is the inductive `Content`; integer
  payloads are `Int` (the source holds `i64`), float payloads are exact
  rationals (IEEE rounding of `as f32` is not value-modelled, only the
  range test that selects the 32-bit variant).
* The registry (`SeedData`, a `RefCell` in the source) is threaded as
  explicit state: every decode step returns the possibly-mutated state
  even on failure, mirroring in-place mutation.
* `HashSet`/`HashMap` are association lists; where the source's result
  is a hash map (record field maps), the model canonicalizes by sorting
  on the key, the order-irrelevant quotient of the source's map.  The
  iteration over the buffered content map in the generated two-phase
  record decode is modelled in insertion order (the source iterates a
  hash map in an unspecified but fixed order).
* The generated `unsafe { unreachable_unchecked() }` branches are the
  explicit outcome `DRes.undef`.
* The generated record decoder is generic over the element types of
  its fields exactly as the generated Rust code is generic over field
  seeds: each field descriptor carries its decode function.
-/

/-- `id.strip_prefix('#')` from `SeedData::generate_id`. -/
def stripHash (s : String) : Option String :=
  match s.data with
  | '#' :: rest => some ⟨rest⟩
  | _ => none

/-- `id.contains(['#', ':'])` from `SeedData::generate_id`. -/
def containsHashOrColon (s : String) : Bool :=
  s.data.any (fun c => c = '#' || c = ':')

/-- `id.replace(':', "#")` from `SeedData::generate_id`. -/
def replaceColonByHash (s : String) : String :=
  ⟨s.data.map (fun c => if c = ':' then '#' else c)⟩

/-- The mutable registry state of `SeedData` (`de/seed.rs`): the
uniqueness set of absolute identifiers and the parent-context stack.
The head of `parent_ids` is the back of the source's `VecDeque`,
i.e. the innermost scope. -/
structure SeedData where
  ids : List String
  parent_ids : List String
deriving Repr, DecidableEq

/-- `SeedData::new`. -/
def SeedData.new : SeedData := ⟨[], []⟩

/-- `SeedData::generate_id` (`de/seed.rs:32-58`): computes the absolute
identifier and the parent entry from the raw identifier, then inserts
and pushes only when the absolute identifier is fresh. -/
def SeedData.generate_id (sd : SeedData) (id : String) :
    Except String String × SeedData :=
  let p : String × String :=
    match stripHash id, sd.parent_ids.head? with
    | some sub_id, _ => (sub_id, sub_id)
    | none, pback =>
      if containsHashOrColon id then
        (replaceColonByHash id, replaceColonByHash id)
      else
        match pback with
        | some parent => (parent ++ "/" ++ id, id)
        | none => (id, id)
  if sd.ids.contains p.1 then
    (.error ("duplicate identifier `" ++ p.1 ++ "`"), sd)
  else
    (.ok p.1, { ids := p.1 :: sd.ids, parent_ids := p.2 :: sd.parent_ids })

/-- `SeedData::push_subscope` (`de/seed.rs:60-70`). -/
def SeedData.push_subscope (sd : SeedData) (subscope : String) : SeedData :=
  match sd.parent_ids.head? with
  | some p => { sd with parent_ids := (p ++ "/" ++ subscope) :: sd.parent_ids }
  | none => { sd with parent_ids := subscope :: sd.parent_ids }

/-- `SeedData::pop_parent_id` (`de/seed.rs:72-75`). -/
def SeedData.pop_parent_id (sd : SeedData) : SeedData :=
  { sd with parent_ids := sd.parent_ids.tail }

/-- `Clone for SeedDataInner` (`de/seed.rs:93-100`): an empty
uniqueness set, a copy of the parent-context stack. -/
def SeedData.cloneSeed (sd : SeedData) : SeedData :=
  { ids := [], parent_ids := sd.parent_ids }

/-- The insertion loop of `SeedData::extend` (`de/seed.rs:81-87`):
identifiers inserted before a collision stay inserted. -/
def SeedData.extendLoop : List String → SeedData → Except String Unit × SeedData
  | [], sd => (.ok (), sd)
  | id :: rest, sd =>
    if sd.ids.contains id then
      (.error ("duplicate identifier `" ++ id ++ "`"), sd)
    else
      SeedData.extendLoop rest { sd with ids := id :: sd.ids }

/-- `SeedData::extend` (`de/seed.rs:77-90`): merges `other`'s
uniqueness set, failing on the first identifier already present. -/
def SeedData.extend (sd other : SeedData) : Except String Unit × SeedData :=
  SeedData.extendLoop other.ids sd

/-- The spec's four-branch identifier resolution rule, stated from the
spec's words (§4.1), for comparison with `SeedData.generate_id`: given
the innermost parent context and the raw identifier, return the pair
(absolute identifier, new parent context entry). Branch (1) fires when
`raw` starts with `'#'` and keeps the remainder; branch (2) when `raw`
contains `'#'` or `':'`; branch (3) when a parent context exists;
branch (4) otherwise. -/
def resolutionRuleSpec (parent : Option String) (raw : String) : String × String :=
  match stripHash raw with
  | some rest => (rest, rest)
  | none =>
    if containsHashOrColon raw then
      let n := replaceColonByHash raw
      (n, n)
    else
      match parent with
      | some p => (p ++ "/" ++ raw, raw)
      | none => (raw, raw)

/-- serde's buffered `Content` tree (the replayable raw document
tree): integer payloads carry the source's `i64`, float payloads the
exact value of the source's `f64`. -/
inductive Content where
  | null
  | bool (b : Bool)
  | int (n : Int)
  | float (q : ℚ)
  | str (s : String)
  | seq (xs : List Content)
  | map (entries : List (Content × Content))

/-- Outcome of a decode step: success, a decode error (serde's
`Result::Err`), or the generated `unsafe {
_std::hint::unreachable_unchecked() }` branch. -/
inductive DRes (V : Type) where
  | ok (v : V)
  | err (e : String)
  | undef
deriving DecidableEq

def DRes.isOk {V : Type} : DRes V → Bool
  | .ok _ => true
  | _ => false

def DRes.isErr {V : Type} : DRes V → Bool
  | .err _ => true
  | _ => false

/-- A stateful decoder: serde's `DeserializeSeed` over a buffered
`Content`, with the `SeedData` registry threaded explicitly (every
path returns the possibly-mutated registry). -/
abbrev DecFun (V : Type) := Content → SeedData → DRes V × SeedData

/-- `core::Any` (`core/any/mod.rs`): the dynamic value model.
`int`/`long` are the source's `i32`/`i64`, `float`/`double` the
source's `f32`/`f64` (payload kept exact; see module comment). -/
inductive AnyVal where
  | bool (b : Bool)
  | int (n : Int)
  | long (n : Int)
  | float (q : ℚ)
  | double (q : ℚ)
  | str (s : String)
  | obj (entries : List (String × AnyVal))
  | list (xs : List AnyVal)

/-- `i32::MIN` as an `Int`. -/
def i32Min : Int := -2147483648

/-- `i32::MAX` as an `Int`. -/
def i32Max : Int := 2147483647

/-- `f32::MAX` as an exact rational: `(2 - 2^-23) * 2^127`. -/
def f32Max : ℚ := 340282346638528859811704183484516925440

mutual

/-- The `AnySeed` visitor (`core/any/mod.rs:99-274`) together with the
`ObjectSeed` visitor (`core/any/object.rs:41-97`) it delegates maps
to, and the `OneOrMoreDeserializeSeed` sequence path it delegates
sequences to.  `Content::Null` drives serde's default `visit_unit`,
which is an invalid-type error (no `visit_unit` override exists in the
source).  The seed never mutates the registry, so these are pure. -/
def anyDecodeC : Content → DRes AnyVal
  | .null => .err "invalid type: unit value, expected any possible deserializable value"
  | .bool b => .ok (.bool b)
  | .int n =>
    if i32Min ≤ n ∧ n ≤ i32Max then .ok (.int n) else .ok (.long n)
  | .float q =>
    if -f32Max ≤ q ∧ q ≤ f32Max then .ok (.float q) else .ok (.double q)
  | .str s => .ok (.str s)
  | .seq xs =>
    match anyDecodeList xs with
    | .ok vs => .ok (.list vs)
    | .err e => .err e
    | .undef => .undef
  | .map entries =>
    match objDecodeEntries entries [] with
    | .ok fields => .ok (.obj fields)
    | .err e => .err e
    | .undef => .undef

def anyDecodeList : List Content → DRes (List AnyVal)
  | [] => .ok []
  | c :: rest =>
    match anyDecodeC c with
    | .ok v =>
      match anyDecodeList rest with
      | .ok vs => .ok (v :: vs)
      | .err e => .err e
      | .undef => .undef
    | .err e => .err e
    | .undef => .undef

def objDecodeEntries : List (Content × Content) → List (String × AnyVal) →
    DRes (List (String × AnyVal))
  | [], acc => .ok acc
  | (kc, vc) :: rest, acc =>
    match kc with
    | .str k =>
      if (acc.map Prod.fst).contains k then
        .err ("duplicate field `" ++ k ++ "`")
      else
        match anyDecodeC vc with
        | .ok v => objDecodeEntries rest (acc ++ [(k, v)])
        | .err e => .err e
        | .undef => .undef
    | _ => .err "invalid type: expected a string key"

end

/-- `core::Object` decoding (`ObjectSeed`), as a standalone decoder:
only a mapping is accepted (`deserialize_map`). -/
def objectDecode : Content → DRes (List (String × AnyVal))
  | .map entries => objDecodeEntries entries []
  | _ => .err "invalid type: expected a key-value object"

/-- `AnySeed` as a `DecFun`: the registry is carried but never
mutated (the identifier-validating code in `ObjectSeed` is commented
out in the source). -/
def anyDec : DecFun AnyVal := fun c sd => (anyDecodeC c, sd)

mutual

/-- The domain on which `AnyValue` decoding can succeed, from the
spec's description of the raw-tree shapes (§3, §4.2) minus `null`:
scalars; sequences of such trees; mappings whose keys are distinct
strings and whose values are again such trees. -/
def contentWf : Content → Bool
  | .null => false
  | .bool _ => true
  | .int _ => true
  | .float _ => true
  | .str _ => true
  | .seq xs => contentListWf xs
  | .map entries => contentEntriesWf entries []

def contentListWf : List Content → Bool
  | [] => true
  | c :: rest => contentWf c && contentListWf rest

def contentEntriesWf : List (Content × Content) → List String → Bool
  | [], _ => true
  | (kc, vc) :: rest, seen =>
    match kc with
    | .str k => !(seen.contains k) && contentWf vc && contentEntriesWf rest (seen ++ [k])
    | _ => false

end

/-- Whether a content tree is a mapping. -/
def isMapShape : Content → Bool
  | .map _ => true
  | _ => false

/-- Whether a content tree is a bare scalar shape (bool, integer,
float or string): the shapes the spec calls "any other scalar". -/
def scalarShape : Content → Bool
  | .bool _ => true
  | .int _ => true
  | .float _ => true
  | .str _ => true
  | _ => false

/-- The shared `visit_seq` loop of both normalizers
(`private/de/list.rs:63-74` and `177-188`): decode each element with
the element seed, in order, collecting results. -/
def seqElemsLoop {V : Type} (elemDec : DecFun V) :
    List Content → SeedData → DRes (List V) × SeedData
  | [], sd => (.ok [], sd)
  | c :: rest, sd =>
    match elemDec c sd with
    | (.ok v, sd') =>
      match seqElemsLoop elemDec rest sd' with
      | (.ok vs, sd'') => (.ok (v :: vs), sd'')
      | (.err e, sd'') => (.err e, sd'')
      | (.undef, sd'') => (.undef, sd'')
    | (.err e, sd') => (.err e, sd')
    | (.undef, sd') => (.undef, sd')

/-- `OneOrMoreDeserializeSeed` (`private/de/list.rs:28-79`): its
visitor implements only `visit_map` (decode one element, wrap as a
singleton) and `visit_seq` (elementwise); every other shape falls
into serde's default visitor methods, which error. -/
def oneOrMoreDecode {V : Type} (elemDec : DecFun V) : DecFun (List V) :=
  fun c sd =>
    match c with
    | .map entries =>
      match elemDec (.map entries) sd with
      | (.ok v, sd') => (.ok [v], sd')
      | (.err e, sd') => (.err e, sd')
      | (.undef, sd') => (.undef, sd')
    | .seq xs => seqElemsLoop elemDec xs sd
    | _ => (.err "invalid type: expected one or a sequence of objects", sd)

/-- The salad-core `ListDeserializeSeed`
(`salad-core/crates/serde/src/de/list.rs:28-184`): `visit_seq` is
elementwise; `visit_map` and every scalar visitor forward the content
to the element seed and wrap the result as a singleton; `null` still
falls into serde's default `visit_unit`, which errors. -/
def listDecodeSaladCore {V : Type} (elemDec : DecFun V) : DecFun (List V) :=
  fun c sd =>
    match c with
    | .seq xs => seqElemsLoop elemDec xs sd
    | .null => (.err "invalid type: unit value, expected one or a list of values", sd)
    | other =>
      match elemDec other sd with
      | (.ok v, sd') => (.ok [v], sd')
      | (.err e, sd') => (.err e, sd')
      | (.undef, sd') => (.undef, sd')

/-- The per-entry rewrite of `MapOrSeqDeserializeSeed::visit_map`
(`private/de/list.rs:145-162`): a mapping value is augmented by
pushing the entry `key -> entryKey` at the end; a non-mapping value
with a configured predicate becomes the two-field mapping
`[key -> entryKey, predicate -> value]`; otherwise a custom error. -/
def mapOrSeqRewrite (key : String) (pred : Option String) (kc vc : Content) :
    Except String Content :=
  match vc, pred with
  | .map m, _ => .ok (.map (m ++ [(.str key, kc)]))
  | v, some p => .ok (.map [(.str key, kc), (.str p, v)])
  | _, none => .error "data type cannot be deserialized as a list of objects"

/-- All entry rewrites of a mapping, in source order (the expanded
sequence form equivalent to the mapping). -/
def mapOrSeqRewriteAll (key : String) (pred : Option String) :
    List (Content × Content) → Except String (List Content)
  | [] => .ok []
  | (kc, vc) :: rest =>
    match mapOrSeqRewrite key pred kc vc with
    | .ok c =>
      match mapOrSeqRewriteAll key pred rest with
      | .ok cs => .ok (c :: cs)
      | .error e => .error e
    | .error e => .error e

/-- The `visit_map` loop of `MapOrSeqDeserializeSeed`
(`private/de/list.rs:136-175`): rewrite each entry, decode the
rewritten mapping with the element seed, collect in order. -/
def mapOrSeqMapLoop {V : Type} (key : String) (pred : Option String) (elemDec : DecFun V) :
    List (Content × Content) → SeedData → DRes (List V) × SeedData
  | [], sd => (.ok [], sd)
  | (kc, vc) :: rest, sd =>
    match mapOrSeqRewrite key pred kc vc with
    | .error e => (.err e, sd)
    | .ok c' =>
      match elemDec c' sd with
      | (.ok v, sd') =>
        match mapOrSeqMapLoop key pred elemDec rest sd' with
        | (.ok vs, sd'') => (.ok (v :: vs), sd'')
        | (.err e, sd'') => (.err e, sd'')
        | (.undef, sd'') => (.undef, sd'')
      | (.err e, sd') => (.err e, sd')
      | (.undef, sd') => (.undef, sd')

/-- `MapOrSeqDeserializeSeed` (`private/de/list.rs:98-193`): a mapping
is rewritten entrywise, a sequence is decoded elementwise, anything
else falls into serde's default visitor methods, which error. -/
def mapOrSeqDecode {V : Type} (key : String) (pred : Option String) (elemDec : DecFun V) :
    DecFun (List V) :=
  fun c sd =>
    match c with
    | .map entries => mapOrSeqMapLoop key pred elemDec entries sd
    | .seq xs => seqElemsLoop elemDec xs sd
    | _ => (.err "invalid type: expected a sequence or map of objects", sd)

/-- The candidate loop of the generated union deserializer
(`macro/src/codegen/enums.rs:240-257`): for each candidate in
declared order, clone the registry (empty uniqueness set, copied
parent stack), run the candidate on the buffered content against the
clone; on success merge the clone into the enclosing registry via
`extend` (propagating a merge failure), on failure fall through to
the next candidate.  `i` is the index of the current candidate. -/
def unionGo {V : Type} (c : Content) (enumName : String) :
    Nat → List (DecFun V) → SeedData → DRes (Nat × V) × SeedData
  | _, [], sd => (.err ("data did not match any variant of enum " ++ enumName), sd)
  | i, d :: rest, sd =>
    match d c sd.cloneSeed with
    | (.ok v, fork) =>
      match sd.extend fork with
      | (.ok _, sd') => (.ok ((i, v)), sd')
      | (.error e, sd') => (.err e, sd')
    | (.err _, _) => unionGo c enumName (i + 1) rest sd
    | (.undef, fork) => (.undef, fork)

/-- The generated `DeserializeSeed` for a tuple-style union
(`tuples::generate_de_impl`): buffer the content, then try the
candidates in declared order; the decoded value is tagged with the
index of the winning candidate (the model of the variant
constructor).  If every candidate fails, the error names the union's
declared type name. -/
def unionDecode {V : Type} (cands : List (DecFun V)) (enumName : String) :
    DecFun (Nat × V) :=
  fun c sd => unionGo c enumName 0 cands sd

/-- A value slot of the generated per-record value enum
(`value::generate_enum`): either a declared field's variant — the
variant is determined by the matched field, modelled by tagging with
the field's literal — or the `Any` fallback variant. -/
inductive FVal (V : Type) where
  | typed (lit : String) (v : V)
  | anyV (a : AnyVal)

/-- The backing field map of a decoded record (`struct_map` in the
generated code), canonicalized by key order (the source's `HashMap`
is key-order-irrelevant). -/
abbrev RecordVal (V : Type) := List (String × FVal V)

/-- A declared field of a generated record: its serialized literal
name, whether the Rust type is non-`Option` (mandatory), the
decode-time outcome of parsing its configured default literal (if
any), its optional sub-scope name, and its decode seed (already the
map-or-sequence seed when the field carries `map_key`). -/
structure FieldDesc (V : Type) where
  literal : String
  mandatory : Bool
  defaultVal : Option (Except String V)
  subscope : Option String
  dec : DecFun V

/-- First declared field whose literal matches the key (the generated
`match key.as_str()` arm selection). -/
def findField {V : Type} (fields : List (FieldDesc V)) (k : String) :
    Option (FieldDesc V) :=
  fields.find? (fun f => f.literal == k)

/-- Decoding one matched field value: push the sub-scope if
configured, run the field seed, pop the sub-scope only on success
(the `?` operator skips the pop on error). -/
def decodeFieldValue {V : Type} (f : FieldDesc V) (vc : Content) (sd : SeedData) :
    DRes V × SeedData :=
  match f.subscope with
  | some s =>
    match f.dec vc (sd.push_subscope s) with
    | (.ok v, sd') => (.ok v, sd'.pop_parent_id)
    | (.err e, sd') => (.err e, sd')
    | (.undef, sd') => (.undef, sd')
  | none => f.dec vc sd

/-- Phase 2 of the generated id-record decode
(`de::generate_id_seed_de_impl`, `codegen/structs.rs:370-393`): for
each buffered `(key, content)` entry, match the key against the
declared field literals; a match decodes with the field's seed and
stores the field's variant, a non-match decodes as `Any` and stores
the fallback variant. -/
def recordFieldsLoop {V : Type} (fields : List (FieldDesc V)) :
    List (String × Content) → RecordVal V → SeedData → DRes (RecordVal V) × SeedData
  | [], acc, sd => (.ok acc, sd)
  | (k, vc) :: rest, acc, sd =>
    match findField fields k with
    | some f =>
      match decodeFieldValue f vc sd with
      | (.ok v, sd') => recordFieldsLoop fields rest (acc ++ [(k, .typed k v)]) sd'
      | (.err e, sd') => (.err e, sd')
      | (.undef, sd') => (.undef, sd')
    | none =>
      match anyDecodeC vc with
      | .ok a => recordFieldsLoop fields rest (acc ++ [(k, .anyV a)]) sd
      | .err e => (.err e, sd)
      | .undef => (.undef, sd)

/-- Phase 1 of the generated id-record decode
(`codegen/structs.rs:337-368`): scan the raw entries, requiring
string keys, rejecting duplicates, and consuming the identifier field
through `generate_id` (replacing its value by the absolute id and
recording that a context was pushed). -/
def recordIdScan (idLit : String) :
    List (Content × Content) → List (String × Content) → Bool → SeedData →
    DRes (List (String × Content) × Bool) × SeedData
  | [], acc, isId, sd => (.ok (acc, isId), sd)
  | (kc, vc) :: rest, acc, isId, sd =>
    match kc with
    | .str k =>
      if (acc.map Prod.fst).contains k then
        (.err ("duplicate field `" ++ k ++ "`"), sd)
      else if k = idLit then
        match vc with
        | .str rawId =>
          match sd.generate_id rawId with
          | (.ok absId, sd') => recordIdScan idLit rest (acc ++ [(k, .str absId)]) true sd'
          | (.error e, sd') => (.err e, sd')
        | _ => (.err "invalid type: expected a string identifier", sd)
      else
        recordIdScan idLit rest (acc ++ [(k, vc)]) isId sd
    | _ => (.err "invalid type: expected a string key", sd)

/-- The after-loop per-field checks generated by
`de::check_field_value_iter` (`codegen/structs.rs:184-245`): a field
with a configured default is synthesized when absent — reaching the
generated `unreachable_unchecked` branch when the default literal
fails to parse as the field type; a mandatory field without a default
yields the named "field is null" error when absent. -/
def fieldsCheckDefaults {V : Type} :
    List (FieldDesc V) → RecordVal V → DRes (RecordVal V)
  | [], m => .ok m
  | f :: rest, m =>
    match f.defaultVal with
    | some r =>
      if (m.map Prod.fst).contains f.literal then
        fieldsCheckDefaults rest m
      else
        match r with
        | .ok v => fieldsCheckDefaults rest (m ++ [(f.literal, .typed f.literal v)])
        | .error _ => .undef
    | none =>
      if f.mandatory then
        if (m.map Prod.fst).contains f.literal then
          fieldsCheckDefaults rest m
        else
          .err ("the field `" ++ f.literal ++ "` is null")
      else
        fieldsCheckDefaults rest m

/-- Stable insertion of an entry into a key-sorted association list. -/
def insertSortedByKey {A : Type} (p : String × A) :
    List (String × A) → List (String × A)
  | [] => [p]
  | q :: rest =>
    if p.1 < q.1 then p :: q :: rest else q :: insertSortedByKey p rest

/-- Key-sorted canonical form of an association list: the model of
the source's key-order-irrelevant `HashMap`. -/
def sortByKey {A : Type} : List (String × A) → List (String × A)
  | [] => []
  | p :: rest => insertSortedByKey p (sortByKey rest)

/-- The generated `DeserializeSeed` for a record WITH an identifier
field (`de::generate_id_seed_de_impl`, `codegen/structs.rs:331-405`):
only a mapping is accepted; phase 1 buffers the entries (consuming
the identifier through `generate_id`), phase 2 decodes each buffered
entry, then the default/mandatory checks run, and the pushed
identifier context is popped only on the success path (every failure
path returns before the pop). -/
def recordDecodeId {V : Type} (fields : List (FieldDesc V)) (idLit : String) :
    DecFun (RecordVal V) :=
  fun c sd =>
    match c with
    | .map entries =>
      match recordIdScan idLit entries [] false sd with
      | (.ok (contentMap, isId), sd1) =>
        match recordFieldsLoop fields contentMap [] sd1 with
        | (.ok m, sd2) =>
          match fieldsCheckDefaults fields m with
          | .ok m' =>
            (.ok (sortByKey m'), if isId then sd2.pop_parent_id else sd2)
          | .err e => (.err e, sd2)
          | .undef => (.undef, sd2)
        | (.err e, sd2) => (.err e, sd2)
        | (.undef, sd2) => (.undef, sd2)
      | (.err e, sd1) => (.err e, sd1)
      | (.undef, sd1) => (.undef, sd1)
    | _ => (.err "invalid type: expected a map", sd)

/-- The single-pass entry loop of the generated record decode WITHOUT
an identifier field (`de::generate_seed_de_impl`,
`codegen/structs.rs:502-519`): duplicate keys are rejected against
the field map built so far, matched fields decode immediately with
their seed, unmatched keys decode as `Any`. -/
def recordNoIdLoop {V : Type} (fields : List (FieldDesc V)) :
    List (Content × Content) → RecordVal V → SeedData → DRes (RecordVal V) × SeedData
  | [], acc, sd => (.ok acc, sd)
  | (kc, vc) :: rest, acc, sd =>
    match kc with
    | .str k =>
      if (acc.map Prod.fst).contains k then
        (.err ("duplicate field `" ++ k ++ "`"), sd)
      else
        match findField fields k with
        | some f =>
          match decodeFieldValue f vc sd with
          | (.ok v, sd') => recordNoIdLoop fields rest (acc ++ [(k, .typed k v)]) sd'
          | (.err e, sd') => (.err e, sd')
          | (.undef, sd') => (.undef, sd')
        | none =>
          match anyDecodeC vc with
          | .ok a => recordNoIdLoop fields rest (acc ++ [(k, .anyV a)]) sd
          | .err e => (.err e, sd)
          | .undef => (.undef, sd)
    | _ => (.err "invalid type: expected a string key", sd)

/-- The generated `DeserializeSeed` for a record WITHOUT an
identifier field (`de::generate_seed_de_impl`,
`codegen/structs.rs:474-531`). -/
def recordDecodeNoId {V : Type} (fields : List (FieldDesc V)) :
    DecFun (RecordVal V) :=
  fun c sd =>
    match c with
    | .map entries =>
      match recordNoIdLoop fields entries [] sd with
      | (.ok m, sd1) =>
        match fieldsCheckDefaults fields m with
        | .ok m' => (.ok (sortByKey m'), sd1)
        | .err e => (.err e, sd1)
        | .undef => (.undef, sd1)
      | (.err e, sd1) => (.err e, sd1)
      | (.undef, sd1) => (.undef, sd1)
    | _ => (.err "invalid type: expected a map", sd)

/-- Lookup in the backing field map (`self.0.get(#field_literal)`). -/
def recordGet {V : Type} (m : RecordVal V) (lit : String) : Option (FVal V) :=
  (m.find? (fun p => p.1 == lit)).map Prod.snd

/-- Outcome of a generated field accessor
(`getters::generate_impl`, `codegen/structs.rs:147-171`): `ok` when a
match arm applies, `unreachableBranch` for the
`debug_assert!(false); unsafe { unreachable_unchecked() }` fallback.
A wrong-variant slot always falls through to the fallback; an absent
slot does whenever the accessor has no `None` arm. -/
inductive GetterRes (V : Type) where
  | ok (v : Option V)
  | unreachableBranch
deriving DecidableEq

/-- A generated field accessor (`getters::generate_impl`,
`codegen/structs.rs:120-144`).  Its match arms are selected by
`match (optional, primitive, has_attr_default)` where
`has_attr_default` is the STRUCT-LEVEL `SALAD_ATTR_DEFAULT`
attribute (`salad_attrs.contains(SALAD_ATTR_DEFAULT)`,
`codegen/structs.rs:127`), not the field-level default used by the
decode-time synthesis: the `None => ...` arm exists only for an
optional field on a struct WITHOUT that attribute
(`(true, _, false)`), so with `structDefault = true` an absent
optional slot falls through to the `unreachable_unchecked`
fallback.  The `primitive` component only affects the deref of the
returned value, not arm presence. -/
def getterOutcome {V : Type} (structDefault : Bool) (f : FieldDesc V)
    (m : RecordVal V) : GetterRes V :=
  match recordGet m f.literal with
  | some (.typed l v) =>
    if l = f.literal then .ok (some v) else .unreachableBranch
  | some (.anyV _) => .unreachableBranch
  | none =>
    if f.mandatory || structDefault then .unreachableBranch else .ok none

/-- A small closed value universe for concrete record instances in the
witnesses: string-typed and int-typed field values. -/
inductive PVal where
  | s (v : String)
  | i (v : Int)
deriving DecidableEq, Repr

/-- `StrValue`'s deserialization (`core/string.rs:148-153`, via
`CompactString`): only a string is accepted. -/
def strDec : DecFun String :=
  fun c sd =>
    match c with
    | .str s => (.ok s, sd)
    | _ => (.err "invalid type: expected a string", sd)

/-- `core::Int` (`i32`) deserialization: an in-range integer. -/
def intDec : DecFun Int :=
  fun c sd =>
    match c with
    | .int n =>
      if i32Min ≤ n ∧ n ≤ i32Max then (.ok n, sd)
      else (.err "invalid value: integer out of range of i32", sd)
    | _ => (.err "invalid type: expected i32", sd)

/-- `strDec` into the `PVal` universe. -/
def pvalStrDec : DecFun PVal :=
  fun c sd =>
    match strDec c sd with
    | (.ok v, sd') => (.ok (.s v), sd')
    | (.err e, sd') => (.err e, sd')
    | (.undef, sd') => (.undef, sd')

/-- `intDec` into the `PVal` universe. -/
def pvalIntDec : DecFun PVal :=
  fun c sd =>
    match intDec c sd with
    | (.ok v, sd') => (.ok (.i v), sd')
    | (.err e, sd') => (.err e, sd')
    | (.undef, sd') => (.undef, sd')

/-- Concrete field: mandatory string field `name`. -/
def nameField : FieldDesc PVal :=
  { literal := "name", mandatory := true, defaultVal := none,
    subscope := none, dec := pvalStrDec }

/-- Concrete field: mandatory int field `value`. -/
def valueField : FieldDesc PVal :=
  { literal := "value", mandatory := true, defaultVal := none,
    subscope := none, dec := pvalIntDec }

/-- Concrete record `{name: string, value: int}` (no identifier
field), used by the map-or-sequence example. -/
def nameValueRecordDec : DecFun (RecordVal PVal) :=
  recordDecodeNoId [nameField, valueField]

/-- Concrete field: mandatory string identifier field `id`. -/
def idField : FieldDesc PVal :=
  { literal := "id", mandatory := true, defaultVal := none,
    subscope := none, dec := pvalStrDec }

/-- Concrete record `{id: identifier string}`. -/
def idOnlyRecordDec : DecFun (RecordVal PVal) :=
  recordDecodeId [idField] "id"

/-- Concrete record `{id: int}` (no identifier semantics): a shape
that rejects a string-valued `id` entry. -/
def idIntRecordDec : DecFun (RecordVal PVal) :=
  recordDecodeNoId
    [{ literal := "id", mandatory := true, defaultVal := none,
       subscope := none, dec := pvalIntDec }]

/-- Concrete field: optional int field `opt` with NO configured
default (the `(false, None)` arm of `check_field_value_iter` emits no
after-loop check for it). -/
def optIntField : FieldDesc PVal :=
  { literal := "opt", mandatory := false, defaultVal := none,
    subscope := none, dec := pvalIntDec }

/-- Concrete field: optional int field `opt` whose configured default
literal fails to parse as the field type — `defaultVal` holds the
`Err` outcome of the generated decode-time
`<i32 as FromStr>::from_str("abc")`. -/
def badDefaultField : FieldDesc PVal :=
  { literal := "opt", mandatory := false,
    defaultVal := some (.error "invalid digit found in string"),
    subscope := none, dec := pvalIntDec }

theorem generate_id_follows_rule (sd : SeedData) (raw : String)
    (hfresh : ¬ (resolutionRuleSpec sd.parent_ids.head? raw).1 ∈ sd.ids) :
    sd.generate_id raw =
      (.ok (resolutionRuleSpec sd.parent_ids.head? raw).1,
       { ids := (resolutionRuleSpec sd.parent_ids.head? raw).1 :: sd.ids,
         parent_ids := (resolutionRuleSpec sd.parent_ids.head? raw).2 :: sd.parent_ids }) := by
  have hsame : (match stripHash raw, sd.parent_ids.head? with
      | some sub_id, _ => (sub_id, sub_id)
      | none, pback =>
        if containsHashOrColon raw then
          (replaceColonByHash raw, replaceColonByHash raw)
        else
          match pback with
          | some parent => (parent ++ "/" ++ raw, raw)
          | none => (raw, raw)) =
      resolutionRuleSpec sd.parent_ids.head? raw := by
    unfold resolutionRuleSpec
    cases stripHash raw <;> cases sd.parent_ids.head? <;> rfl
  have hcontains : sd.ids.contains (resolutionRuleSpec sd.parent_ids.head? raw).1 = false := by
    simp [hfresh]
  unfold SeedData.generate_id
  simp only [hsame, hcontains, Bool.false_eq_true, if_false]

/-- C1: every successful `generate_id(raw)` computes the returned
absolute identifier and the newly pushed parent context by the spec's
four-branch rule (checked in order: leading `#`; contains `#` or `:`;
parent exists; bare), and in particular `"step1"` under parent
`"main"` yields `"main/step1"` pushing parent `"step1"`, while
`"#step1"` yields `"step1"` regardless of any parent context. -/
theorem C1_generate_id_four_branch_rule (sd : SeedData) (raw : String)
    (hfresh : ¬ (resolutionRuleSpec sd.parent_ids.head? raw).1 ∈ sd.ids) :
    (sd.generate_id raw =
      (.ok (resolutionRuleSpec sd.parent_ids.head? raw).1,
       { ids := (resolutionRuleSpec sd.parent_ids.head? raw).1 :: sd.ids,
         parent_ids := (resolutionRuleSpec sd.parent_ids.head? raw).2 :: sd.parent_ids }))
    ∧ (∀ sd' : SeedData, sd'.parent_ids.head? = some "main" →
        ¬ "main/step1" ∈ sd'.ids →
        sd'.generate_id "step1" =
          (.ok "main/step1",
           { ids := "main/step1" :: sd'.ids, parent_ids := "step1" :: sd'.parent_ids }))
    ∧ (∀ sd' : SeedData, ¬ "step1" ∈ sd'.ids →
        sd'.generate_id "#step1" =
          (.ok "step1",
           { ids := "step1" :: sd'.ids, parent_ids := "step1" :: sd'.parent_ids })) := by
  refine ⟨generate_id_follows_rule sd raw hfresh, ?_, ?_⟩
  · intro sd' hhead hf
    have hrule : resolutionRuleSpec sd'.parent_ids.head? "step1" = ("main/step1", "step1") := by
      rw [hhead]; rfl
    have := generate_id_follows_rule sd' "step1" (by rw [hrule]; exact hf)
    rw [hrule] at this
    exact this
  · intro sd' hf
    have hrule : resolutionRuleSpec sd'.parent_ids.head? "#step1" = ("step1", "step1") := rfl
    have := generate_id_follows_rule sd' "#step1" (by rw [hrule]; exact hf)
    rw [hrule] at this
    exact this

/-- Witness for C1: concrete instantiation with parent stack `["main"]`. -/
theorem C1_generate_id_four_branch_rule_witness :
    SeedData.generate_id ⟨[], ["main"]⟩ "step1" =
      (.ok "main/step1", ⟨["main/step1"], ["step1", "main"]⟩) := by
  exact (C1_generate_id_four_branch_rule ⟨[], ["main"]⟩ "step1"
    (by decide)).2.1 ⟨[], ["main"]⟩ rfl (by decide)

theorem DRes.isOk_iff {V : Type} (r : DRes V) : r.isOk = true ↔ ∃ v, r = .ok v := by
  cases r <;> simp [DRes.isOk]

mutual

theorem anyDecodeC_total : ∀ c, contentWf c = true → (anyDecodeC c).isOk = true
  | .bool b, _ => by simp [anyDecodeC, DRes.isOk]
  | .int n, _ => by
    simp only [anyDecodeC]
    split <;> simp [DRes.isOk]
  | .float q, _ => by
    simp only [anyDecodeC]
    split <;> simp [DRes.isOk]
  | .str s, _ => by simp [anyDecodeC, DRes.isOk]
  | .seq xs, h => by
    have hxs : contentListWf xs = true := by simpa [contentWf] using h
    have := anyDecodeList_total xs hxs
    rw [DRes.isOk_iff] at this
    obtain ⟨vs, hvs⟩ := this
    simp [anyDecodeC, hvs, DRes.isOk]
  | .map entries, h => by
    have hes : contentEntriesWf entries [] = true := by simpa [contentWf] using h
    have := objDecodeEntries_total entries [] (by simpa using hes)
    rw [DRes.isOk_iff] at this
    obtain ⟨fields, hf⟩ := this
    simp [anyDecodeC, hf, DRes.isOk]

theorem anyDecodeList_total : ∀ xs, contentListWf xs = true → (anyDecodeList xs).isOk = true
  | [], _ => by simp [anyDecodeList, DRes.isOk]
  | c :: rest, h => by
    have hc : contentWf c = true := by simp [contentListWf] at h; exact h.1
    have hrest : contentListWf rest = true := by simp [contentListWf] at h; exact h.2
    have h1 := anyDecodeC_total c hc
    rw [DRes.isOk_iff] at h1
    obtain ⟨v, hv⟩ := h1
    have h2 := anyDecodeList_total rest hrest
    rw [DRes.isOk_iff] at h2
    obtain ⟨vs, hvs⟩ := h2
    simp [anyDecodeList, hv, hvs, DRes.isOk]

theorem objDecodeEntries_total : ∀ es acc,
    contentEntriesWf es (acc.map Prod.fst) = true → (objDecodeEntries es acc).isOk = true
  | [], _, _ => by simp [objDecodeEntries, DRes.isOk]
  | (kc, vc) :: rest, acc, h => by
    match kc with
    | .null | .bool _ | .int _ | .float _ | .seq _ | .map _ =>
      exact absurd h (by simp [contentEntriesWf])
    | .str k =>
      simp only [contentEntriesWf, Bool.and_eq_true, Bool.not_eq_true'] at h
      obtain ⟨⟨hk, hvc⟩, hrest⟩ := h
      have h1 := anyDecodeC_total vc hvc
      rw [DRes.isOk_iff] at h1
      obtain ⟨v, hv⟩ := h1
      have h2 := objDecodeEntries_total rest (acc ++ [(k, v)])
        (by simpa [List.map_append] using hrest)
      have hk' : ¬ k ∈ List.map Prod.fst acc := by simpa using hk
      simp only [objDecodeEntries, hv]
      rw [if_neg (by simpa using hk')]
      exact h2

end

/-- C7 counterexample: `Content::Null` drives serde's default
`visit_unit`, which the `AnySeed` visitor does not override, so
decoding `null` into the dynamic value FAILS; `AnyValue` decoding is
not total over the raw-tree domain as claimed. -/
theorem C7_counterexample_null_fails :
    (anyDec Content.null SeedData.new).1.isOk = false ∧
    anyDecodeC Content.null =
      .err "invalid type: unit value, expected any possible deserializable value" := by
  constructor
  · simp [anyDec, anyDecodeC, DRes.isOk]
  · simp [anyDecodeC]

/-- C7 (amended): decoding any raw tree other than `null` — bool,
integer, float, string, sequence, or mapping with distinct string
keys whose values themselves decode — into the dynamic `AnyValue`
always succeeds, and never touches the registry; decoding `null`
fails (the salad-core doc itself says the type "validates for any
non-null value"). -/
theorem C7_any_total_nonnull (c : Content) (sd : SeedData)
    (h : contentWf c = true) :
    (anyDec c sd).1.isOk = true ∧ (anyDec c sd).2 = sd := by
  exact ⟨anyDecodeC_total c h, rfl⟩

/-- Witness for C7 (amended): a concrete mapping with two distinct
string keys, a nested sequence and scalars. -/
theorem C7_any_total_nonnull_witness :
    ((anyDec (.map [(.str "a", .int 1), (.str "b", .seq [.bool true, .str "x"])])
      SeedData.new).1.isOk = true) := by
  exact (C7_any_total_nonnull _ SeedData.new (by decide)).1

/-- C5 counterexample: the private `OneOrMoreDeserializeSeed` rejects
every bare scalar (its visitor implements only `visit_map` and
`visit_seq`), even though the element type — here `Any` — decodes
scalars; the claimed scalar-as-singleton acceptance does not hold for
this normalizer. -/
theorem C5_counterexample_scalar_rejected :
    (anyDec (.bool true) SeedData.new).1 = .ok (.bool true) ∧
    (oneOrMoreDecode anyDec (.bool true) SeedData.new).1 =
      .err "invalid type: expected one or a sequence of objects" := by
  constructor
  · simp [anyDec, anyDecodeC]
  · simp [oneOrMoreDecode]

/-- C5 (amended): for the one-or-many normalizers — for any element
decoder `d`: a mapping decodes as a single element wrapped in a
singleton list; a sequence decodes element by element in order; a
bare scalar (bool, integer, float, string) is REJECTED by the
crate-private `OneOrMoreDeserializeSeed` regardless of `d`, while the
salad-core `ListDeserializeSeed` accepts it as a singleton whenever
`d` decodes it. -/
theorem C5_one_or_many (V : Type) (d : DecFun V) (sd : SeedData) :
    (∀ entries v sd', d (.map entries) sd = (.ok v, sd') →
        oneOrMoreDecode d (.map entries) sd = (.ok [v], sd'))
    ∧ (oneOrMoreDecode d (.seq []) sd = (.ok [], sd))
    ∧ (∀ c rest v sd' vs sd'', d c sd = (.ok v, sd') →
        oneOrMoreDecode d (.seq rest) sd' = (.ok vs, sd'') →
        oneOrMoreDecode d (.seq (c :: rest)) sd = (.ok (v :: vs), sd''))
    ∧ (∀ c, scalarShape c = true →
        (oneOrMoreDecode d c sd).1.isErr = true ∧ (oneOrMoreDecode d c sd).2 = sd)
    ∧ (∀ c v sd', scalarShape c = true → d c sd = (.ok v, sd') →
        listDecodeSaladCore d c sd = (.ok [v], sd')) := by
  refine ⟨?_, ?_, ?_, ?_, ?_⟩
  · intro entries v sd' h
    simp [oneOrMoreDecode, h]
  · simp [oneOrMoreDecode, seqElemsLoop]
  · intro c rest v sd' vs sd'' h1 h2
    simp only [oneOrMoreDecode] at h2 ⊢
    simp [seqElemsLoop, h1, h2]
  · intro c hc
    cases c <;> simp_all [scalarShape, oneOrMoreDecode, DRes.isErr]
  · intro c v sd' hc h
    cases c <;> simp_all [scalarShape, listDecodeSaladCore]

/-- Witness for C5 (amended): the salad-core seed on the scalar
`"x"` with the `Any` element decoder. -/
theorem C5_one_or_many_witness :
    listDecodeSaladCore anyDec (.str "x") SeedData.new =
      (.ok [.str "x"], SeedData.new) := by
  exact (C5_one_or_many AnyVal anyDec SeedData.new).2.2.2.2 (.str "x") (.str "x")
    SeedData.new rfl (by simp [anyDec, anyDecodeC])

theorem seqElemsLoop_ok_length {V : Type} (d : DecFun V) :
    ∀ cs sd vs sd', seqElemsLoop d cs sd = (.ok vs, sd') → vs.length = cs.length := by
  intro cs
  induction cs with
  | nil =>
    intro sd vs sd' h
    simp [seqElemsLoop] at h
    simp [h.1.symm]
  | cons c rest ih =>
    intro sd vs sd' h
    simp only [seqElemsLoop] at h
    rcases h1 : d c sd with ⟨r1, sd1⟩
    rw [h1] at h
    cases r1 with
    | ok v =>
      simp only at h
      rcases h2 : seqElemsLoop d rest sd1 with ⟨r2, sd2⟩
      rw [h2] at h
      cases r2 with
      | ok vs2 =>
        simp only at h
        injection h with hfst hsnd
        injection hfst with hvs
        subst hvs
        simp [ih sd1 vs2 sd2 h2]
      | err e => simp at h
      | undef => simp at h
    | err e => simp at h
    | undef => simp at h

theorem mapOrSeq_map_loop_eq_seq {V : Type} (key : String) (pred : Option String)
    (d : DecFun V) :
    ∀ entries cs sd, mapOrSeqRewriteAll key pred entries = .ok cs →
      mapOrSeqMapLoop key pred d entries sd = seqElemsLoop d cs sd := by
  intro entries
  induction entries with
  | nil =>
    intro cs sd h
    simp [mapOrSeqRewriteAll] at h
    subst h
    simp [mapOrSeqMapLoop, seqElemsLoop]
  | cons e rest ih =>
    rcases e with ⟨kc, vc⟩
    intro cs sd h
    simp only [mapOrSeqRewriteAll] at h
    rcases h1 : mapOrSeqRewrite key pred kc vc with e1 | c'
    · rw [h1] at h
      simp at h
    · rw [h1] at h
      rcases h2 : mapOrSeqRewriteAll key pred rest with e2 | cs'
      · rw [h2] at h
        simp at h
      · rw [h2] at h
        simp only [Except.ok.injEq] at h
        subst h
        simp only [mapOrSeqMapLoop, h1, seqElemsLoop]
        rcases h3 : d c' sd with ⟨r3, sd3⟩
        cases r3 with
        | ok v => simp [ih cs' sd3 h2]
        | err e => simp
        | undef => simp

/-- C4: the map-or-sequence normalizer with key `k` and optional
predicate `p`: a mapping decodes entrywise in source order, each
entry rewritten — a mapping value is augmented with the field
`k -> entryKey`, a non-mapping value with configured `p` becomes the
two-field mapping `{k: entryKey, p: value}` — and the decode of the
mapping equals the decode of the rewritten (already-expanded)
sequence form, with one output element per entry; in particular the
spec's `{"one": {"value": 1}, "two": {"value": 2}}` example with
`k = "name"` decodes equal to the sequence form
`[{"name": "one", "value": 1}, {"name": "two", "value": 2}]`. -/
theorem C4_map_or_seq_normalizer (V : Type) (key : String) (pred : Option String)
    (d : DecFun V) :
    (∀ entries cs sd, mapOrSeqRewriteAll key pred entries = .ok cs →
        mapOrSeqDecode key pred d (.map entries) sd =
          mapOrSeqDecode key pred d (.seq cs) sd)
    ∧ (∀ kc m, mapOrSeqRewrite key pred kc (.map m) =
        .ok (.map (m ++ [(.str key, kc)])))
    ∧ (∀ kc vc p, pred = some p → isMapShape vc = false →
        mapOrSeqRewrite key pred kc vc = .ok (.map [(.str key, kc), (.str p, vc)]))
    ∧ (∀ cs vs sd sd', mapOrSeqDecode key pred d (.seq cs) sd = (.ok vs, sd') →
        vs.length = cs.length)
    ∧ (mapOrSeqDecode "name" none nameValueRecordDec
        (.map [(.str "one", .map [(.str "value", .int 1)]),
               (.str "two", .map [(.str "value", .int 2)])]) SeedData.new =
       mapOrSeqDecode "name" none nameValueRecordDec
        (.seq [.map [(.str "name", .str "one"), (.str "value", .int 1)],
               .map [(.str "name", .str "two"), (.str "value", .int 2)]]) SeedData.new)
    ∧ (mapOrSeqDecode "name" none nameValueRecordDec
        (.map [(.str "one", .map [(.str "value", .int 1)]),
               (.str "two", .map [(.str "value", .int 2)])]) SeedData.new =
       (.ok [[("name", .typed "name" (.s "one")), ("value", .typed "value" (.i 1))],
             [("name", .typed "name" (.s "two")), ("value", .typed "value" (.i 2))]],
        SeedData.new)) := by
  refine ⟨?_, ?_, ?_, ?_, ?_, ?_⟩
  · intro entries cs sd h
    simp only [mapOrSeqDecode]
    exact mapOrSeq_map_loop_eq_seq key pred d entries cs sd h
  · intro kc m
    cases pred <;> rfl
  · intro kc vc p hp hvc
    subst hp
    cases vc <;> simp_all [isMapShape, mapOrSeqRewrite]
  · intro cs vs sd sd' h
    simp only [mapOrSeqDecode] at h
    exact seqElemsLoop_ok_length d cs sd vs sd' h
  · have hlt : (['n', 'a', 'm', 'e'] : List Char) < ['v', 'a', 'l', 'u', 'e'] := by decide
    have hnlt : ¬ (['v', 'a', 'l', 'u', 'e'] : List Char) < ['n', 'a', 'm', 'e'] := by decide
    simp [mapOrSeqDecode, mapOrSeqMapLoop, mapOrSeqRewrite, seqElemsLoop,
      nameValueRecordDec, recordDecodeNoId, recordNoIdLoop, findField, List.find?,
      decodeFieldValue, pvalStrDec, pvalIntDec, strDec, intDec, nameField, valueField,
      fieldsCheckDefaults, sortByKey, insertSortedByKey, i32Min, i32Max, hlt, hnlt]
  · have hlt : (['n', 'a', 'm', 'e'] : List Char) < ['v', 'a', 'l', 'u', 'e'] := by decide
    have hnlt : ¬ (['v', 'a', 'l', 'u', 'e'] : List Char) < ['n', 'a', 'm', 'e'] := by decide
    simp [mapOrSeqDecode, mapOrSeqMapLoop, mapOrSeqRewrite, seqElemsLoop,
      nameValueRecordDec, recordDecodeNoId, recordNoIdLoop, findField, List.find?,
      decodeFieldValue, pvalStrDec, pvalIntDec, strDec, intDec, nameField, valueField,
      fieldsCheckDefaults, sortByKey, insertSortedByKey, i32Min, i32Max, hlt, hnlt]

/-- Witness for C4: the general map-to-sequence equivalence applied
at the spec example's mapping (the rewritten sequence carries the
injected key at the end of each entry, where the source pushes it). -/
theorem C4_map_or_seq_normalizer_witness :
    mapOrSeqDecode "name" none nameValueRecordDec
      (.map [(.str "one", .map [(.str "value", .int 1)]),
             (.str "two", .map [(.str "value", .int 2)])]) SeedData.new =
    mapOrSeqDecode "name" none nameValueRecordDec
      (.seq [.map [(.str "value", .int 1), (.str "name", .str "one")],
             .map [(.str "value", .int 2), (.str "name", .str "two")]]) SeedData.new := by
  exact (C4_map_or_seq_normalizer (RecordVal PVal) "name" none nameValueRecordDec).1
    [(.str "one", .map [(.str "value", .int 1)]),
     (.str "two", .map [(.str "value", .int 2)])]
    [.map [(.str "value", .int 1), (.str "name", .str "one")],
     .map [(.str "value", .int 2), (.str "name", .str "two")]]
    SeedData.new rfl

theorem DRes.isErr_iff {V : Type} (r : DRes V) : r.isErr = true ↔ ∃ e, r = .err e := by
  cases r <;> simp [DRes.isErr]

theorem unionGo_all_fail {V : Type} (c : Content) (name : String) :
    ∀ (cands : List (DecFun V)) (i : Nat) (sd : SeedData),
    (∀ p ∈ cands, (p c sd.cloneSeed).1.isErr = true) →
    unionGo c name i cands sd =
      (.err ("data did not match any variant of enum " ++ name), sd) := by
  intro cands
  induction cands with
  | nil => intro i sd _; rfl
  | cons p rest ih =>
    intro i sd h
    have hp := h p (List.mem_cons_self p rest)
    rcases hres : p c sd.cloneSeed with ⟨r, fork⟩
    rw [hres] at hp
    rw [DRes.isErr_iff] at hp
    obtain ⟨e, he⟩ := hp
    subst he
    simp only [unionGo, hres]
    exact ih (i + 1) sd (fun q hq => h q (List.mem_cons_of_mem p hq))

theorem unionGo_first_success {V : Type} (c : Content) (name : String) (d : DecFun V)
    (v : V) (fork : SeedData) :
    ∀ (pre : List (DecFun V)) (post : List (DecFun V)) (i : Nat) (sd : SeedData),
    (∀ p ∈ pre, (p c sd.cloneSeed).1.isErr = true) →
    d c sd.cloneSeed = (.ok v, fork) →
    unionGo c name i (pre ++ d :: post) sd =
      (match sd.extend fork with
       | (.ok _, sd') => (.ok ((i + pre.length, v)), sd')
       | (.error e, sd') => (.err e, sd')) := by
  intro pre
  induction pre with
  | nil =>
    intro post i sd _ hd
    simp only [List.nil_append, unionGo, hd]
    rcases hext : sd.extend fork with ⟨r, sd'⟩
    cases r <;> simp
  | cons p rest ih =>
    intro post i sd h hd
    have hp := h p (List.mem_cons_self p rest)
    rcases hres : p c sd.cloneSeed with ⟨r, f⟩
    rw [hres] at hp
    rw [DRes.isErr_iff] at hp
    obtain ⟨e, he⟩ := hp
    subst he
    simp only [List.cons_append, unionGo, hres]
    have := ih post (i + 1) sd (fun q hq => h q (List.mem_cons_of_mem p hq)) hd
    have happ : rest.append (d :: post) = rest ++ d :: post := rfl
    rw [happ, this]
    have harith : i + 1 + rest.length = i + (rest.length + 1) := by omega
    simp [harith]

theorem extendLoop_ok_mem :
    ∀ (ids : List String) (sd sd' : SeedData),
    SeedData.extendLoop ids sd = (.ok (), sd') →
    (∀ x, x ∈ sd'.ids ↔ x ∈ ids ∨ x ∈ sd.ids) ∧ sd'.parent_ids = sd.parent_ids := by
  intro ids
  induction ids with
  | nil =>
    intro sd sd' h
    simp only [SeedData.extendLoop] at h
    injection h with _ hsd
    subst hsd
    simp
  | cons id rest ih =>
    intro sd sd' h
    simp only [SeedData.extendLoop] at h
    by_cases hc : sd.ids.contains id = true
    · rw [if_pos hc] at h
      exact absurd h (by simp)
    · rw [if_neg hc] at h
      obtain ⟨hmem, hpar⟩ := ih { sd with ids := id :: sd.ids } sd' h
      refine ⟨fun x => ?_, hpar⟩
      have := hmem x
      simp only [List.mem_cons] at this ⊢
      tauto

theorem extendLoop_err_iff :
    ∀ (ids : List String) (sd : SeedData), ids.Nodup →
    ((∃ e sd2, SeedData.extendLoop ids sd = (.error e, sd2)) ↔
      ∃ x, x ∈ ids ∧ x ∈ sd.ids) := by
  intro ids
  induction ids with
  | nil =>
    intro sd _
    simp [SeedData.extendLoop]
  | cons id rest ih =>
    intro sd hnd
    rw [List.nodup_cons] at hnd
    obtain ⟨hid, hrest⟩ := hnd
    simp only [SeedData.extendLoop]
    by_cases hc : sd.ids.contains id = true
    · rw [if_pos hc]
      have hidmem : id ∈ sd.ids := by simpa using hc
      constructor
      · intro _
        exact ⟨id, List.mem_cons_self id rest, hidmem⟩
      · intro _
        exact ⟨"duplicate identifier `" ++ id ++ "`", sd, rfl⟩
    · rw [if_neg hc]
      have hidnot : ¬ id ∈ sd.ids := by simpa using hc
      rw [ih { sd with ids := id :: sd.ids } hrest]
      constructor
      · rintro ⟨x, hx1, hx2⟩
        simp only [List.mem_cons] at hx2
        rcases hx2 with hx2 | hx2
        · exact absurd (hx2 ▸ hx1) hid
        · exact ⟨x, List.mem_cons_of_mem id hx1, hx2⟩
      · rintro ⟨x, hx1, hx2⟩
        simp only [List.mem_cons] at hx1
        rcases hx1 with hx1 | hx1
        · exact absurd (hx1 ▸ hx2) hidnot
        · exact ⟨x, hx1, List.mem_cons_of_mem id hx2⟩

/-- C3: each union candidate runs against a forked registry — the
clone has an empty uniqueness set and a copy of the parent-context
stack; a failed candidate's fork is discarded (none of its
registrations reach the enclosing registry), and a successful
candidate's fork is merged by `extend`, which fails exactly when one
of the fork's identifiers is already present; hence when candidate
`A` fails and candidate `B` succeeds with fork `f`, the final
registry's identifiers are exactly `f`'s (newly registered during
`B`'s trial) together with the enclosing ones — none of `A`'s. -/
theorem C3_union_fork_rollback (V : Type) (A B : DecFun V) (name : String)
    (c : Content) (sd : SeedData) (v : V) (f : SeedData)
    (hA : (A c sd.cloneSeed).1.isErr = true)
    (hB : B c sd.cloneSeed = (.ok v, f)) :
    ((sd.cloneSeed).ids = [] ∧ (sd.cloneSeed).parent_ids = sd.parent_ids)
    ∧ (∀ sd', sd.extend f = (.ok (), sd') →
        unionDecode [A, B] name c sd = (.ok ((1, v)), sd')
        ∧ (∀ x, x ∈ sd'.ids ↔ x ∈ f.ids ∨ x ∈ sd.ids))
    ∧ (f.ids.Nodup →
        ((∃ e sd2, sd.extend f = (.error e, sd2)) ↔ ∃ x, x ∈ f.ids ∧ x ∈ sd.ids)) := by
  refine ⟨⟨rfl, rfl⟩, ?_, ?_⟩
  · intro sd' hext
    constructor
    · have := unionGo_first_success c name B v f [A] [] 0 sd
        (by intro p hp; simp at hp; subst hp; exact hA) hB
      simp only [unionDecode]
      rw [show ([A, B] : List (DecFun V)) = [A] ++ B :: [] from rfl, this, hext]
      rfl
    · exact (extendLoop_ok_mem f.ids sd sd' hext).1
  · intro hnd
    exact extendLoop_err_iff f.ids sd hnd

/-- Witness for C3: candidate `{id: int}` fails on `{"id": "a"}`
while candidate `{id: identifier}` succeeds, registering `"a"`; the
union commits exactly the successful fork's registration. -/
theorem C3_union_fork_rollback_witness :
    unionDecode [idIntRecordDec, idOnlyRecordDec] "U"
      (.map [(.str "id", .str "a")]) SeedData.new =
      (.ok ((1, [("id", .typed "id" (.s "a"))])), ⟨["a"], []⟩) := by
  exact ((C3_union_fork_rollback (RecordVal PVal) idIntRecordDec idOnlyRecordDec "U"
    (.map [(.str "id", .str "a")]) SeedData.new
    [("id", .typed "id" (.s "a"))] ⟨["a"], []⟩ rfl rfl).2.1 ⟨["a"], []⟩ rfl).1

/-- C2 counterexample: with the registry already holding `"x"`
(registered by a sibling), the single candidate decodes `{"id":
"#x"}` successfully against its fork, yet the union decode FAILS —
the `extend` merge hits the duplicate identifier — so the union does
not return the value of the first succeeding candidate, and it fails
even though not every candidate failed (and with a
duplicate-identifier error, not the union-name error). -/
theorem C2_counterexample_extend_failure :
    (idOnlyRecordDec (.map [(.str "id", .str "#x")])
      (SeedData.cloneSeed ⟨["x"], ["x"]⟩)).1.isOk = true
    ∧ unionDecode [idOnlyRecordDec] "U" (.map [(.str "id", .str "#x")]) ⟨["x"], ["x"]⟩ =
        (.err "duplicate identifier `x`", ⟨["x"], ["x"]⟩) := by
  exact ⟨rfl, rfl⟩

/-- C2 (amended): the union decoder tries the candidates in declared
order; the first candidate whose decode succeeds wins — even if a
later candidate would also decode the input — and its value, tagged
with that candidate's index, is returned PROVIDED the `extend` merge
of its fork into the enclosing registry succeeds; if the merge fails,
that merge error is the union's result; only if every candidate fails
does the union fail with the error naming the union's declared type
name. -/
theorem C2_union_first_match (V : Type) (name : String) (c : Content) (sd : SeedData) :
    (∀ (pre post : List (DecFun V)) (d : DecFun V) (v : V) (fork sd' : SeedData),
        (∀ p ∈ pre, (p c sd.cloneSeed).1.isErr = true) →
        d c sd.cloneSeed = (.ok v, fork) →
        sd.extend fork = (.ok (), sd') →
        unionDecode (pre ++ d :: post) name c sd = (.ok ((pre.length, v)), sd'))
    ∧ (∀ (pre post : List (DecFun V)) (d : DecFun V) (v : V) (e : String)
        (fork sd' : SeedData),
        (∀ p ∈ pre, (p c sd.cloneSeed).1.isErr = true) →
        d c sd.cloneSeed = (.ok v, fork) →
        sd.extend fork = (.error e, sd') →
        unionDecode (pre ++ d :: post) name c sd = (.err e, sd'))
    ∧ (∀ cands : List (DecFun V),
        (∀ p ∈ cands, (p c sd.cloneSeed).1.isErr = true) →
        unionDecode cands name c sd =
          (.err ("data did not match any variant of enum " ++ name), sd)) := by
  refine ⟨?_, ?_, ?_⟩
  · intro pre post d v fork sd' hpre hd hext
    have := unionGo_first_success c name d v fork pre post 0 sd hpre hd
    simp only [unionDecode]
    rw [this, hext]
    simp
  · intro pre post d v e fork sd' hpre hd hext
    have := unionGo_first_success c name d v fork pre post 0 sd hpre hd
    simp only [unionDecode]
    rw [this, hext]
  · intro cands h
    exact unionGo_all_fail c name cands 0 sd h

/-- Witness for C2 (amended): a one-candidate union committing its
identifier registration on a fresh registry. -/
theorem C2_union_first_match_witness :
    unionDecode [idOnlyRecordDec] "U" (.map [(.str "id", .str "b")]) SeedData.new =
      (.ok ((0, [("id", .typed "id" (.s "b"))])), ⟨["b"], []⟩) := by
  exact (C2_union_first_match (RecordVal PVal) "U" (.map [(.str "id", .str "b")])
    SeedData.new).1 [] [] idOnlyRecordDec [("id", .typed "id" (.s "b"))]
    ⟨["b"], []⟩ ⟨["b"], []⟩ (by intro p hp; simp at hp) rfl rfl

theorem objDecodeEntries_append :
    ∀ (xs ys : List (Content × Content)) (acc : List (String × AnyVal)),
    objDecodeEntries (xs ++ ys) acc =
      (match objDecodeEntries xs acc with
       | .ok m => objDecodeEntries ys m
       | .err e => .err e
       | .undef => .undef) := by
  intro xs
  induction xs with
  | nil => intro ys acc; simp [objDecodeEntries]
  | cons p rest ih =>
    intro ys acc
    rcases p with ⟨kc, vc⟩
    cases kc with
    | str k =>
      simp only [List.cons_append, objDecodeEntries]
      by_cases hc : (acc.map Prod.fst).contains k = true
      · rw [if_pos hc, if_pos hc]
      · rw [if_neg hc, if_neg hc]
        cases anyDecodeC vc with
        | ok v => exact ih ys (acc ++ [(k, v)])
        | err e => rfl
        | undef => rfl
    | null => simp [objDecodeEntries]
    | bool b => simp [objDecodeEntries]
    | int n => simp [objDecodeEntries]
    | float q => simp [objDecodeEntries]
    | seq s => simp [objDecodeEntries]
    | map m => simp [objDecodeEntries]

theorem objDecodeEntries_ok_keys :
    ∀ (es : List (Content × Content)) (acc : List (String × AnyVal)) m,
    objDecodeEntries es acc = .ok m →
    (∀ x, x ∈ acc.map Prod.fst → x ∈ m.map Prod.fst) ∧
    (∀ k v, (Content.str k, v) ∈ es → k ∈ m.map Prod.fst) := by
  intro es
  induction es with
  | nil =>
    intro acc m h
    simp only [objDecodeEntries, DRes.ok.injEq] at h
    subst h
    simp
  | cons p rest ih =>
    intro acc m h
    rcases p with ⟨kc, vc⟩
    cases kc with
    | str k =>
      simp only [objDecodeEntries] at h
      by_cases hc : (acc.map Prod.fst).contains k = true
      · rw [if_pos hc] at h; exact absurd h (by simp)
      · rw [if_neg hc] at h
        cases hv : anyDecodeC vc with
        | ok v =>
          rw [hv] at h
          obtain ⟨hmono, hkeys⟩ := ih (acc ++ [(k, v)]) m h
          constructor
          · intro x hx
            exact hmono x (by simp [hx])
          · intro k' v' hk'
            simp only [List.mem_cons] at hk'
            rcases hk' with hk' | hk'
            · obtain ⟨hk1, _⟩ := Prod.mk.injEq .. ▸ hk'
              have : k' = k := by
                have := congrArg Prod.fst hk'
                simpa using this
              subst this
              exact hmono k' (by simp)
            · exact hkeys k' v' hk'
        | err e => rw [hv] at h; exact absurd h (by simp)
        | undef => rw [hv] at h; exact absurd h (by simp)
    | null => exact absurd h (by simp [objDecodeEntries])
    | bool b => exact absurd h (by simp [objDecodeEntries])
    | int n => exact absurd h (by simp [objDecodeEntries])
    | float q => exact absurd h (by simp [objDecodeEntries])
    | seq s => exact absurd h (by simp [objDecodeEntries])
    | map mm => exact absurd h (by simp [objDecodeEntries])

theorem recordIdScan_append (idLit : String) :
    ∀ (xs ys : List (Content × Content)) (acc : List (String × Content))
      (isId : Bool) (sd : SeedData),
    recordIdScan idLit (xs ++ ys) acc isId sd =
      (match recordIdScan idLit xs acc isId sd with
       | (.ok (m, b), sd') => recordIdScan idLit ys m b sd'
       | (.err e, sd') => (.err e, sd')
       | (.undef, sd') => (.undef, sd')) := by
  intro xs
  induction xs with
  | nil => intro ys acc isId sd; simp [recordIdScan]
  | cons p rest ih =>
    intro ys acc isId sd
    rcases p with ⟨kc, vc⟩
    cases kc with
    | str k =>
      simp only [List.cons_append, recordIdScan]
      by_cases hc : (acc.map Prod.fst).contains k = true
      · rw [if_pos hc, if_pos hc]
      · rw [if_neg hc, if_neg hc]
        by_cases hk : k = idLit
        · rw [if_pos hk, if_pos hk]
          cases vc with
          | str rawId =>
            dsimp only
            rcases hg : sd.generate_id rawId with ⟨r, sd2⟩
            cases r with
            | ok absId =>
              dsimp only
              exact ih ys (acc ++ [(k, .str absId)]) true sd2
            | error e => rfl
          | null => rfl
          | bool b => rfl
          | int n => rfl
          | float q => rfl
          | seq s => rfl
          | map mm => rfl
        · rw [if_neg hk, if_neg hk]
          exact ih ys (acc ++ [(k, vc)]) isId sd
    | null => simp [recordIdScan]
    | bool b => simp [recordIdScan]
    | int n => simp [recordIdScan]
    | float q => simp [recordIdScan]
    | seq s => simp [recordIdScan]
    | map mm => simp [recordIdScan]

theorem recordIdScan_ok_keys (idLit : String) :
    ∀ (es : List (Content × Content)) (acc : List (String × Content))
      (isId : Bool) (sd : SeedData) m b sd',
    recordIdScan idLit es acc isId sd = (.ok (m, b), sd') →
    (∀ x, x ∈ acc.map Prod.fst → x ∈ m.map Prod.fst) ∧
    (∀ k v, (Content.str k, v) ∈ es → k ∈ m.map Prod.fst) := by
  intro es
  induction es with
  | nil =>
    intro acc isId sd m b sd' h
    simp only [recordIdScan] at h
    injection h with h1 h2
    injection h1 with h1
    obtain ⟨hm, _⟩ := Prod.mk.injEq .. ▸ h1
    have hmm : acc = m := by
      have := congrArg Prod.fst h1
      simpa using this
    subst hmm
    simp
  | cons p rest ih =>
    intro acc isId sd m b sd' h
    rcases p with ⟨kc, vc⟩
    cases kc with
    | str k =>
      simp only [recordIdScan] at h
      by_cases hc : (acc.map Prod.fst).contains k = true
      · rw [if_pos hc] at h; exact absurd h (by simp)
      · rw [if_neg hc] at h
        have main : ∀ (vnew : Content) (isId2 : Bool) (sd2 : SeedData),
            recordIdScan idLit rest (acc ++ [(k, vnew)]) isId2 sd2 = (.ok (m, b), sd') →
            (∀ x, x ∈ acc.map Prod.fst → x ∈ m.map Prod.fst) ∧
            (∀ k' v', (Content.str k', v') ∈ (Content.str k, vc) :: rest →
              k' ∈ m.map Prod.fst) := by
          intro vnew isId2 sd2 hrec
          obtain ⟨hmono, hkeys⟩ := ih (acc ++ [(k, vnew)]) isId2 sd2 m b sd' hrec
          constructor
          · intro x hx
            exact hmono x (by simp [hx])
          · intro k' v' hk'
            simp only [List.mem_cons] at hk'
            rcases hk' with hk' | hk'
            · have : k' = k := by
                have := congrArg Prod.fst hk'
                simpa using this
              subst this
              exact hmono k' (by simp)
            · exact hkeys k' v' hk'
        by_cases hk : k = idLit
        · rw [if_pos hk] at h
          cases vc with
          | str rawId =>
            dsimp only at h
            rcases hg : sd.generate_id rawId with ⟨r, sd2⟩
            rw [hg] at h
            cases r with
            | ok absId =>
              dsimp only at h
              exact main (.str absId) true sd2 h
            | error e => exact absurd h (by simp)
          | null => exact absurd h (by simp)
          | bool b2 => exact absurd h (by simp)
          | int n => exact absurd h (by simp)
          | float q => exact absurd h (by simp)
          | seq s => exact absurd h (by simp)
          | map mm => exact absurd h (by simp)
        · rw [if_neg hk] at h
          exact main vc isId sd h
    | null => exact absurd h (by simp [recordIdScan])
    | bool b2 => exact absurd h (by simp [recordIdScan])
    | int n => exact absurd h (by simp [recordIdScan])
    | float q => exact absurd h (by simp [recordIdScan])
    | seq s => exact absurd h (by simp [recordIdScan])
    | map mm => exact absurd h (by simp [recordIdScan])

theorem recordNoIdLoop_append {V : Type} (fields : List (FieldDesc V)) :
    ∀ (xs ys : List (Content × Content)) (acc : RecordVal V) (sd : SeedData),
    recordNoIdLoop fields (xs ++ ys) acc sd =
      (match recordNoIdLoop fields xs acc sd with
       | (.ok m, sd') => recordNoIdLoop fields ys m sd'
       | (.err e, sd') => (.err e, sd')
       | (.undef, sd') => (.undef, sd')) := by
  intro xs
  induction xs with
  | nil => intro ys acc sd; simp [recordNoIdLoop]
  | cons p rest ih =>
    intro ys acc sd
    rcases p with ⟨kc, vc⟩
    cases kc with
    | str k =>
      simp only [List.cons_append, recordNoIdLoop]
      by_cases hc : (acc.map Prod.fst).contains k = true
      · rw [if_pos hc, if_pos hc]
      · rw [if_neg hc, if_neg hc]
        cases findField fields k with
        | some f =>
          dsimp only
          rcases hd : decodeFieldValue f vc sd with ⟨r, sd2⟩
          cases r with
          | ok v =>
            dsimp only
            exact ih ys (acc ++ [(k, .typed k v)]) sd2
          | err e => rfl
          | undef => rfl
        | none =>
          dsimp only
          cases anyDecodeC vc with
          | ok a =>
            dsimp only
            exact ih ys (acc ++ [(k, .anyV a)]) sd
          | err e => rfl
          | undef => rfl
    | null => simp [recordNoIdLoop]
    | bool b => simp [recordNoIdLoop]
    | int n => simp [recordNoIdLoop]
    | float q => simp [recordNoIdLoop]
    | seq s => simp [recordNoIdLoop]
    | map mm => simp [recordNoIdLoop]

theorem recordNoIdLoop_ok_keys {V : Type} (fields : List (FieldDesc V)) :
    ∀ (es : List (Content × Content)) (acc : RecordVal V) (sd : SeedData) m sd',
    recordNoIdLoop fields es acc sd = (.ok m, sd') →
    (∀ x, x ∈ acc.map Prod.fst → x ∈ m.map Prod.fst) ∧
    (∀ k v, (Content.str k, v) ∈ es → k ∈ m.map Prod.fst) := by
  intro es
  induction es with
  | nil =>
    intro acc sd m sd' h
    simp only [recordNoIdLoop] at h
    have hmm : acc = m := by
      have := congrArg Prod.fst h
      simpa using this
    subst hmm
    simp
  | cons p rest ih =>
    intro acc sd m sd' h
    rcases p with ⟨kc, vc⟩
    cases kc with
    | str k =>
      simp only [recordNoIdLoop] at h
      by_cases hc : (acc.map Prod.fst).contains k = true
      · rw [if_pos hc] at h; exact absurd h (by simp)
      · rw [if_neg hc] at h
        have main : ∀ (fv : FVal V) (sd2 : SeedData),
            recordNoIdLoop fields rest (acc ++ [(k, fv)]) sd2 = (.ok m, sd') →
            (∀ x, x ∈ acc.map Prod.fst → x ∈ m.map Prod.fst) ∧
            (∀ k' v', (Content.str k', v') ∈ (Content.str k, vc) :: rest →
              k' ∈ m.map Prod.fst) := by
          intro fv sd2 hrec
          obtain ⟨hmono, hkeys⟩ := ih (acc ++ [(k, fv)]) sd2 m sd' hrec
          constructor
          · intro x hx
            exact hmono x (by simp [hx])
          · intro k' v' hk'
            simp only [List.mem_cons] at hk'
            rcases hk' with hk' | hk'
            · have : k' = k := by
                have := congrArg Prod.fst hk'
                simpa using this
              subst this
              exact hmono k' (by simp)
            · exact hkeys k' v' hk'
        rcases hf : findField fields k with _ | f
        · rw [hf] at h
          dsimp only at h
          cases ha : anyDecodeC vc with
          | ok a =>
            rw [ha] at h
            exact main (.anyV a) sd h
          | err e => rw [ha] at h; exact absurd h (by simp)
          | undef => rw [ha] at h; exact absurd h (by simp)
        · rw [hf] at h
          dsimp only at h
          rcases hd : decodeFieldValue f vc sd with ⟨r, sd2⟩
          rw [hd] at h
          cases r with
          | ok v =>
            dsimp only at h
            exact main (.typed k v) sd2 h
          | err e => exact absurd h (by simp)
          | undef => exact absurd h (by simp)
    | null => exact absurd h (by simp [recordNoIdLoop])
    | bool b => exact absurd h (by simp [recordNoIdLoop])
    | int n => exact absurd h (by simp [recordNoIdLoop])
    | float q => exact absurd h (by simp [recordNoIdLoop])
    | seq s => exact absurd h (by simp [recordNoIdLoop])
    | map mm => exact absurd h (by simp [recordNoIdLoop])

/-- C6: a raw mapping in which the same (string) key appears twice
never decodes successfully — into the untyped `Object`, into a record
with an identifier field, or into a record without one, for ANY field
declarations (so regardless of whether the key is declared) — and
whenever the entries before the second occurrence scan cleanly, the
error is exactly the duplicate-field error naming the key. -/
theorem C6_duplicate_key_rejected (V : Type) (fields : List (FieldDesc V))
    (idLit : String) (sd : SeedData) (e1 e2 e3 : List (Content × Content))
    (k : String) (v1 v2 : Content) :
    ((objectDecode (.map (e1 ++ (.str k, v1) :: e2 ++ (.str k, v2) :: e3))).isOk = false)
    ∧ (∀ m, objDecodeEntries (e1 ++ (.str k, v1) :: e2) [] = .ok m →
        objectDecode (.map (e1 ++ (.str k, v1) :: e2 ++ (.str k, v2) :: e3)) =
          .err ("duplicate field `" ++ k ++ "`"))
    ∧ ((recordDecodeId fields idLit
        (.map (e1 ++ (.str k, v1) :: e2 ++ (.str k, v2) :: e3)) sd).1.isOk = false)
    ∧ (∀ m b sd1, recordIdScan idLit (e1 ++ (.str k, v1) :: e2) [] false sd =
          (.ok (m, b), sd1) →
        recordDecodeId fields idLit
          (.map (e1 ++ (.str k, v1) :: e2 ++ (.str k, v2) :: e3)) sd =
          (.err ("duplicate field `" ++ k ++ "`"), sd1))
    ∧ ((recordDecodeNoId fields
        (.map (e1 ++ (.str k, v1) :: e2 ++ (.str k, v2) :: e3)) sd).1.isOk = false)
    ∧ (∀ m sd1, recordNoIdLoop fields (e1 ++ (.str k, v1) :: e2) [] sd = (.ok m, sd1) →
        recordDecodeNoId fields
          (.map (e1 ++ (.str k, v1) :: e2 ++ (.str k, v2) :: e3)) sd =
          (.err ("duplicate field `" ++ k ++ "`"), sd1)) := by
  have hsplit : e1 ++ (Content.str k, v1) :: e2 ++ (Content.str k, v2) :: e3 =
      (e1 ++ (Content.str k, v1) :: e2) ++ (Content.str k, v2) :: e3 := by simp
  have hobj : ∀ m, objDecodeEntries (e1 ++ (Content.str k, v1) :: e2) [] = .ok m →
      objectDecode (.map (e1 ++ (Content.str k, v1) :: e2 ++ (Content.str k, v2) :: e3)) =
        .err ("duplicate field `" ++ k ++ "`") := by
    intro m hm
    have hk : k ∈ m.map Prod.fst :=
      (objDecodeEntries_ok_keys _ [] m hm).2 k v1 (by simp)
    simp only [objectDecode]
    rw [hsplit, objDecodeEntries_append, hm]
    dsimp only
    simp only [objDecodeEntries]
    rw [if_pos (by simpa using hk)]
  have hrecId : ∀ m b sd1, recordIdScan idLit (e1 ++ (Content.str k, v1) :: e2) [] false sd =
      (.ok (m, b), sd1) →
      recordDecodeId fields idLit
        (.map (e1 ++ (Content.str k, v1) :: e2 ++ (Content.str k, v2) :: e3)) sd =
        (.err ("duplicate field `" ++ k ++ "`"), sd1) := by
    intro m b sd1 hm
    have hk : k ∈ m.map Prod.fst :=
      (recordIdScan_ok_keys idLit _ [] false sd m b sd1 hm).2 k v1 (by simp)
    simp only [recordDecodeId]
    rw [hsplit, recordIdScan_append, hm]
    dsimp only
    simp only [recordIdScan]
    rw [if_pos (by simpa using hk)]
  have hrecNo : ∀ m sd1, recordNoIdLoop fields (e1 ++ (Content.str k, v1) :: e2) [] sd =
      (.ok m, sd1) →
      recordDecodeNoId fields
        (.map (e1 ++ (Content.str k, v1) :: e2 ++ (Content.str k, v2) :: e3)) sd =
        (.err ("duplicate field `" ++ k ++ "`"), sd1) := by
    intro m sd1 hm
    have hk : k ∈ m.map Prod.fst :=
      (recordNoIdLoop_ok_keys fields _ [] sd m sd1 hm).2 k v1 (by simp)
    simp only [recordDecodeNoId]
    rw [hsplit, recordNoIdLoop_append, hm]
    dsimp only
    simp only [recordNoIdLoop]
    rw [if_pos (by simpa using hk)]
  refine ⟨?_, hobj, ?_, hrecId, ?_, hrecNo⟩
  · cases hpre : objDecodeEntries (e1 ++ (Content.str k, v1) :: e2) [] with
    | ok m => rw [hobj m hpre]; rfl
    | err e =>
      simp only [objectDecode]
      rw [hsplit, objDecodeEntries_append, hpre]
      rfl
    | undef =>
      simp only [objectDecode]
      rw [hsplit, objDecodeEntries_append, hpre]
      rfl
  · rcases hpre : recordIdScan idLit (e1 ++ (Content.str k, v1) :: e2) [] false sd
      with ⟨r, sd1⟩
    cases r with
    | ok mb =>
      rcases mb with ⟨m, b⟩
      rw [hrecId m b sd1 hpre]
      rfl
    | err e =>
      simp only [recordDecodeId]
      rw [hsplit, recordIdScan_append, hpre]
      rfl
    | undef =>
      simp only [recordDecodeId]
      rw [hsplit, recordIdScan_append, hpre]
      rfl
  · rcases hpre : recordNoIdLoop fields (e1 ++ (Content.str k, v1) :: e2) [] sd
      with ⟨r, sd1⟩
    cases r with
    | ok m =>
      rw [hrecNo m sd1 hpre]
      rfl
    | err e =>
      simp only [recordDecodeNoId]
      rw [hsplit, recordNoIdLoop_append, hpre]
      rfl
    | undef =>
      simp only [recordDecodeNoId]
      rw [hsplit, recordNoIdLoop_append, hpre]
      rfl

/-- Witness for C6: duplicating the DECLARED identifier key `id`
inside `{id: "z", id: "w"}` yields exactly the duplicate-field error
(and leaves the scan's state at the failure point). -/
theorem C6_duplicate_key_rejected_witness :
    recordDecodeId [idField] "id"
      (.map [(.str "id", .str "z"), (.str "id", .str "w")]) SeedData.new =
      (.err "duplicate field `id`", ⟨["z"], ["z"]⟩) := by
  exact (C6_duplicate_key_rejected PVal [idField] "id" SeedData.new
    [] [] [] "id" (.str "z") (.str "w")).2.2.2.1
    [("id", .str "z")] true ⟨["z"], ["z"]⟩ rfl

theorem generate_id_ok_push (sd : SeedData) (raw a : String) (sd2 : SeedData)
    (h : sd.generate_id raw = (.ok a, sd2)) :
    ∃ p, sd2.parent_ids = p :: sd.parent_ids ∧ sd2.ids = a :: sd.ids := by
  unfold SeedData.generate_id at h
  by_cases hc : sd.ids.contains (match stripHash raw, sd.parent_ids.head? with
      | some sub_id, _ => (sub_id, sub_id)
      | none, pback =>
        if containsHashOrColon raw then
          (replaceColonByHash raw, replaceColonByHash raw)
        else
          match pback with
          | some parent => (parent ++ "/" ++ raw, raw)
          | none => (raw, raw) : String × String).1 = true
  · rw [if_pos hc] at h
    exact absurd h (by simp)
  · rw [if_neg hc] at h
    injection h with h1 h2
    injection h1 with h1
    subst h1
    exact ⟨_, by rw [← h2], by rw [← h2]⟩

theorem decodeFieldValue_ok_parents {V : Type} (f : FieldDesc V)
    (hf : ∀ c sd v sd', f.dec c sd = (.ok v, sd') → sd'.parent_ids = sd.parent_ids)
    (vc : Content) (sd : SeedData) (v : V) (sd' : SeedData)
    (h : decodeFieldValue f vc sd = (.ok v, sd')) :
    sd'.parent_ids = sd.parent_ids := by
  unfold decodeFieldValue at h
  cases hs : f.subscope with
  | some s =>
    rw [hs] at h
    dsimp only at h
    rcases hd : f.dec vc (sd.push_subscope s) with ⟨r, sd2⟩
    rw [hd] at h
    cases r with
    | ok w =>
      simp only at h
      injection h with h1 h2
      subst h2
      have := hf vc (sd.push_subscope s) w sd2 hd
      have hpush : (sd.push_subscope s).parent_ids = (match sd.parent_ids.head? with
          | some p => (p ++ "/" ++ s) :: sd.parent_ids
          | none => s :: sd.parent_ids) := by
        unfold SeedData.push_subscope
        cases sd.parent_ids.head? <;> rfl
      show sd2.pop_parent_id.parent_ids = sd.parent_ids
      unfold SeedData.pop_parent_id
      rw [this, hpush]
      cases sd.parent_ids.head? <;> rfl
    | err e => exact absurd h (by simp)
    | undef => exact absurd h (by simp)
  | none =>
    rw [hs] at h
    dsimp only at h
    exact hf vc sd v sd' h

theorem recordFieldsLoop_ok_parents {V : Type} (fields : List (FieldDesc V))
    (hfields : ∀ f ∈ fields, ∀ c sd v sd', f.dec c sd = (.ok v, sd') →
      sd'.parent_ids = sd.parent_ids) :
    ∀ (cm : List (String × Content)) (acc : RecordVal V) (sd : SeedData) m sd',
    recordFieldsLoop fields cm acc sd = (.ok m, sd') → sd'.parent_ids = sd.parent_ids := by
  intro cm
  induction cm with
  | nil =>
    intro acc sd m sd' h
    simp only [recordFieldsLoop] at h
    have := congrArg Prod.snd h
    simp at this
    rw [← this]
  | cons p rest ih =>
    intro acc sd m sd' h
    rcases p with ⟨k, vc⟩
    simp only [recordFieldsLoop] at h
    rcases hf : findField fields k with _ | f
    · rw [hf] at h
      dsimp only at h
      cases ha : anyDecodeC vc with
      | ok a => rw [ha] at h; exact ih (acc ++ [(k, .anyV a)]) sd m sd' h
      | err e => rw [ha] at h; exact absurd h (by simp)
      | undef => rw [ha] at h; exact absurd h (by simp)
    · rw [hf] at h
      dsimp only at h
      rcases hd : decodeFieldValue f vc sd with ⟨r, sd2⟩
      rw [hd] at h
      cases r with
      | ok v =>
        dsimp only at h
        have hmem : f ∈ fields := by
          have := List.mem_of_find?_eq_some hf
          exact this
        have h1 := decodeFieldValue_ok_parents f (hfields f hmem) vc sd v sd2 hd
        have h2 := ih (acc ++ [(k, .typed k v)]) sd2 m sd' h
        rw [h2, h1]
      | err e => exact absurd h (by simp)
      | undef => exact absurd h (by simp)

theorem recordIdScan_ok_parents (idLit : String) :
    ∀ (es : List (Content × Content)) (acc : List (String × Content))
      (isId : Bool) (sd : SeedData) m b sd',
    (isId = true → idLit ∈ acc.map Prod.fst) →
    recordIdScan idLit es acc isId sd = (.ok (m, b), sd') →
    ((b = isId ∧ sd'.parent_ids = sd.parent_ids) ∨
     (isId = false ∧ b = true ∧ ∃ p, sd'.parent_ids = p :: sd.parent_ids)) := by
  intro es
  induction es with
  | nil =>
    intro acc isId sd m b sd' _ h
    simp only [recordIdScan] at h
    have hb : b = isId := by
      have := congrArg Prod.fst h
      simp at this
      exact this.2.symm
    have hsd : sd' = sd := by
      have := congrArg Prod.snd h
      simpa using this.symm
    subst hsd
    exact Or.inl ⟨hb, rfl⟩
  | cons p rest ih =>
    intro acc isId sd m b sd' hinv h
    rcases p with ⟨kc, vc⟩
    cases kc with
    | str k =>
      simp only [recordIdScan] at h
      by_cases hc : (acc.map Prod.fst).contains k = true
      · rw [if_pos hc] at h; exact absurd h (by simp)
      · rw [if_neg hc] at h
        by_cases hk : k = idLit
        · rw [if_pos hk] at h
          have hIdFalse : isId = false := by
            cases hisId : isId with
            | false => rfl
            | true =>
              exfalso
              have := hinv hisId
              subst hk
              exact hc (by simpa using this)
          subst hIdFalse
          cases vc with
          | str rawId =>
            dsimp only at h
            rcases hg : sd.generate_id rawId with ⟨r, sd2⟩
            rw [hg] at h
            cases r with
            | ok absId =>
              dsimp only at h
              obtain ⟨pp, hpp, _⟩ := generate_id_ok_push sd rawId absId sd2 hg
              have := ih (acc ++ [(k, .str absId)]) true sd2 m b sd'
                (fun _ => by simp [hk]) h
              rcases this with ⟨hb, hpar⟩ | ⟨hfalse, _, _⟩
              · exact Or.inr ⟨rfl, hb, ⟨pp, by rw [hpar, hpp]⟩⟩
              · exact absurd hfalse (by simp)
            | error e => exact absurd h (by simp)
          | null => exact absurd h (by simp)
          | bool b2 => exact absurd h (by simp)
          | int n => exact absurd h (by simp)
          | float q => exact absurd h (by simp)
          | seq sq => exact absurd h (by simp)
          | map mm => exact absurd h (by simp)
        · rw [if_neg hk] at h
          exact ih (acc ++ [(k, vc)]) isId sd m b sd'
            (fun hisId => by simpa using Or.inl (hinv hisId)) h
    | null => exact absurd h (by simp [recordIdScan])
    | bool b2 => exact absurd h (by simp [recordIdScan])
    | int n => exact absurd h (by simp [recordIdScan])
    | float q => exact absurd h (by simp [recordIdScan])
    | seq sq => exact absurd h (by simp [recordIdScan])
    | map mm => exact absurd h (by simp [recordIdScan])

/-- C8 counterexample: decoding `{"id": "x"}` into a record with
identifier field `id` and a further mandatory field `name` consumes
the identifier (pushing parent context `"x"`), then fails the
mandatory-field check — and returns with the pushed context still on
the stack: the pop happens only on the success path, so the claimed
balance on every failure path does not hold. -/
theorem C8_counterexample_no_pop_on_failure :
    recordDecodeId [idField, nameField] "id"
      (.map [(.str "id", .str "x")]) SeedData.new =
      (.err "the field `name` is null", ⟨["x"], ["x"]⟩)
    ∧ SeedData.new.parent_ids = [] := by
  exact ⟨rfl, rfl⟩

/-- C8 (amended): when a record decode consumes an identifier through
`generate_id`, the pushed parent context is popped exactly once on
the SUCCESS path — whenever the decode returns `ok`, the
parent-context stack is restored (given field decoders that preserve
it on success, as the generated ones do) — while on failure paths
after the identifier was consumed the error propagates without the
pop, leaving the pushed context on the stack (shown on the
mandatory-field-missing path of the `{id, name}` record). -/
theorem C8_id_context_pop_balance (V : Type) (fields : List (FieldDesc V))
    (idLit : String)
    (hfields : ∀ f ∈ fields, ∀ c sd v sd', f.dec c sd = (.ok v, sd') →
      sd'.parent_ids = sd.parent_ids) :
    (∀ c sd m sd', recordDecodeId fields idLit c sd = (.ok m, sd') →
        sd'.parent_ids = sd.parent_ids)
    ∧ (∀ (sd : SeedData) (rawId a : String) (sd2 : SeedData),
        sd.generate_id rawId = (.ok a, sd2) →
        recordDecodeId [idField, nameField] "id"
          (.map [(.str "id", .str rawId)]) sd =
          (.err "the field `name` is null", sd2)
        ∧ ∃ p, sd2.parent_ids = p :: sd.parent_ids) := by
  constructor
  · intro c sd m sd' h
    cases c with
    | map entries =>
      simp only [recordDecodeId] at h
      rcases hscan : recordIdScan idLit entries [] false sd with ⟨r1, sd1⟩
      rw [hscan] at h
      cases r1 with
      | ok mb =>
        rcases mb with ⟨cm, isId⟩
        dsimp only at h
        rcases hloop : recordFieldsLoop fields cm [] sd1 with ⟨r2, sd2⟩
        rw [hloop] at h
        cases r2 with
        | ok m0 =>
          dsimp only at h
          cases hdef : fieldsCheckDefaults fields m0 with
          | ok m1 =>
            rw [hdef] at h
            dsimp only at h
            injection h with h1 h2
            have hloopPar := recordFieldsLoop_ok_parents fields hfields cm [] sd1 m0 sd2 hloop
            have hscanPar := recordIdScan_ok_parents idLit entries [] false sd
              cm isId sd1 (fun hh => by simp at hh) hscan
            rcases hscanPar with ⟨hb, hpar⟩ | ⟨_, hb, ⟨p, hpar⟩⟩
            · subst hb
              rw [← h2]
              show sd2.parent_ids = sd.parent_ids
              rw [hloopPar, hpar]
            · subst hb
              rw [← h2]
              show (sd2.pop_parent_id).parent_ids = sd.parent_ids
              unfold SeedData.pop_parent_id
              rw [hloopPar, hpar]
              rfl
          | err e => rw [hdef] at h; exact absurd h (by simp)
          | undef => rw [hdef] at h; exact absurd h (by simp)
        | err e => exact absurd h (by simp)
        | undef => exact absurd h (by simp)
      | err e => exact absurd h (by simp)
      | undef => exact absurd h (by simp)
    | null => exact absurd h (by simp [recordDecodeId])
    | bool b => exact absurd h (by simp [recordDecodeId])
    | int n => exact absurd h (by simp [recordDecodeId])
    | float q => exact absurd h (by simp [recordDecodeId])
    | str s => exact absurd h (by simp [recordDecodeId])
    | seq s => exact absurd h (by simp [recordDecodeId])
  · intro sd rawId a sd2 hg
    obtain ⟨p, hpp, _⟩ := generate_id_ok_push sd rawId a sd2 hg
    have hscan : recordIdScan "id" [(.str "id", .str rawId)] [] false sd =
        (.ok ([("id", Content.str a)], true), sd2) := by
      simp [recordIdScan, hg]
    have hloop : recordFieldsLoop [idField, nameField] [("id", Content.str a)] [] sd2 =
        (.ok [("id", FVal.typed "id" (PVal.s a))], sd2) := by
      simp [recordFieldsLoop, findField, List.find?, idField, nameField,
        decodeFieldValue, pvalStrDec, strDec]
    have hdef : fieldsCheckDefaults [idField, nameField]
        [("id", FVal.typed "id" (PVal.s a))] =
        (.err "the field `name` is null" : DRes (RecordVal PVal)) := by
      simp [fieldsCheckDefaults, idField, nameField]
    refine ⟨?_, ⟨p, hpp⟩⟩
    simp only [recordDecodeId]
    rw [hscan]
    dsimp only
    rw [hloop]
    dsimp only
    rw [hdef]

/-- Witness for C8 (amended): a successful `{id: "w"}` decode leaves
the parent-context stack exactly as it was. -/
theorem C8_id_context_pop_balance_witness :
    ((recordDecodeId [idField] "id" (.map [(.str "id", .str "w")])
      SeedData.new).2).parent_ids = SeedData.new.parent_ids := by
  have hfields : ∀ f ∈ [idField], ∀ c sd v sd',
      f.dec c sd = (.ok v, sd') → sd'.parent_ids = sd.parent_ids := by
    intro f hf c sd v sd' h
    simp only [List.mem_singleton] at hf
    subst hf
    have hsnd : (idField.dec c sd).2 = sd := by
      cases c <;> rfl
    have := congrArg Prod.snd h
    simp only at this
    rw [← this, hsnd]
  exact (C8_id_context_pop_balance PVal [idField] "id" hfields).1
    (.map [(.str "id", .str "w")]) SeedData.new
    [("id", .typed "id" (.s "w"))] ⟨["w"], []⟩ rfl

/-- C9 counterexample: a record whose field `opt` carries a default
literal that does not parse as the field's type, decoded from `{}`
(the field absent), reaches the generated `debug_assert!(false);
unsafe { unreachable_unchecked() }` branch — the outcome is the
undefined-behaviour branch, NOT an InvalidDefault (or any) decode
error returned to the caller. -/
theorem C9_counterexample_undef_not_error :
    recordDecodeNoId [badDefaultField] (.map []) SeedData.new =
      (.undef, SeedData.new)
    ∧ ∀ e, (recordDecodeNoId [badDefaultField] (.map []) SeedData.new).1 ≠ .err e := by
  constructor
  · rfl
  · intro e h
    have : (DRes.undef : DRes (RecordVal PVal)) = .err e := h
    exact absurd this (by simp)

/-- C9 (amended): when a configured default literal cannot be parsed
as the field's declared type, decoding an input mapping lacking that
field does NOT return an error to the caller: as soon as the
after-loop check reaches that field with the field absent, the result
is the generated unreachable/debug-assert branch (undefined
behaviour in release builds); the whole record decode then yields
that branch whenever the entry loop itself succeeded. -/
theorem C9_invalid_default_reaches_undef (V : Type) (f : FieldDesc V)
    (e : String) (post : List (FieldDesc V))
    (hbad : f.defaultVal = some (.error e)) :
    (∀ m : RecordVal V, ¬ f.literal ∈ m.map Prod.fst →
        fieldsCheckDefaults (f :: post) m = .undef)
    ∧ (∀ (fields : List (FieldDesc V)) (entries : List (Content × Content))
        (sd sd1 : SeedData) (m0 : RecordVal V),
        recordNoIdLoop fields entries [] sd = (.ok m0, sd1) →
        fieldsCheckDefaults fields m0 = .undef →
        recordDecodeNoId fields (.map entries) sd = (.undef, sd1)) := by
  constructor
  · intro m hm
    simp only [fieldsCheckDefaults, hbad]
    rw [if_neg (by simpa using hm)]
  · intro fields entries sd sd1 m0 hloop hdef
    simp only [recordDecodeNoId]
    rw [hloop]
    dsimp only
    rw [hdef]

/-- Witness for C9 (amended): the `{opt: bad-default}` record decoded
from the empty mapping. -/
theorem C9_invalid_default_reaches_undef_witness :
    recordDecodeNoId [badDefaultField] (.map ([] : List (Content × Content)))
      SeedData.new = (.undef, SeedData.new) := by
  exact (C9_invalid_default_reaches_undef PVal badDefaultField
    "invalid digit found in string" [] rfl).2 [badDefaultField] [] SeedData.new
    SeedData.new [] rfl
    ((C9_invalid_default_reaches_undef PVal badDefaultField
      "invalid digit found in string" [] rfl).1 [] (by simp))

theorem mem_insertSortedByKey {A : Type} (p q : String × A) :
    ∀ l, q ∈ insertSortedByKey p l ↔ q = p ∨ q ∈ l := by
  intro l
  induction l with
  | nil => simp [insertSortedByKey]
  | cons r rest ih =>
    simp only [insertSortedByKey]
    by_cases hlt : p.1 < r.1
    · rw [if_pos hlt]
      simp [List.mem_cons]
    · rw [if_neg hlt]
      simp only [List.mem_cons, ih]
      tauto

theorem mem_sortByKey {A : Type} (q : String × A) :
    ∀ l, q ∈ sortByKey l ↔ q ∈ l := by
  intro l
  induction l with
  | nil => simp [sortByKey]
  | cons p rest ih =>
    simp only [sortByKey, mem_insertSortedByKey, List.mem_cons, ih]

theorem keys_sortByKey {A : Type} (k : String) (l : List (String × A)) :
    k ∈ (sortByKey l).map Prod.fst ↔ k ∈ l.map Prod.fst := by
  simp only [List.mem_map]
  constructor
  · rintro ⟨p, hp, hk⟩
    exact ⟨p, (mem_sortByKey p l).mp hp, hk⟩
  · rintro ⟨p, hp, hk⟩
    exact ⟨p, (mem_sortByKey p l).mpr hp, hk⟩

theorem recordFieldsLoop_ok_stored {V : Type} (fields : List (FieldDesc V)) :
    ∀ (cm : List (String × Content)) (acc : RecordVal V) (sd : SeedData) m sd',
    recordFieldsLoop fields cm acc sd = (.ok m, sd') →
    (∀ p ∈ acc, (∃ v, p.2 = FVal.typed p.1 v) ∨
      (findField fields p.1 = none ∧ ∃ a, p.2 = FVal.anyV a)) →
    ∀ p ∈ m, (∃ v, p.2 = FVal.typed p.1 v) ∨
      (findField fields p.1 = none ∧ ∃ a, p.2 = FVal.anyV a) := by
  intro cm
  induction cm with
  | nil =>
    intro acc sd m sd' h hacc
    simp only [recordFieldsLoop] at h
    have : acc = m := by
      have := congrArg Prod.fst h
      simpa using this
    subst this
    exact hacc
  | cons p0 rest ih =>
    intro acc sd m sd' h hacc
    rcases p0 with ⟨k, vc⟩
    simp only [recordFieldsLoop] at h
    rcases hf : findField fields k with _ | f
    · rw [hf] at h
      dsimp only at h
      cases ha : anyDecodeC vc with
      | ok a =>
        rw [ha] at h
        refine ih (acc ++ [(k, .anyV a)]) sd m sd' h ?_
        intro p hp
        simp only [List.mem_append, List.mem_singleton] at hp
        rcases hp with hp | hp
        · exact hacc p hp
        · subst hp
          exact Or.inr ⟨hf, ⟨a, rfl⟩⟩
      | err e => rw [ha] at h; exact absurd h (by simp)
      | undef => rw [ha] at h; exact absurd h (by simp)
    · rw [hf] at h
      dsimp only at h
      rcases hd : decodeFieldValue f vc sd with ⟨r, sd2⟩
      rw [hd] at h
      cases r with
      | ok v =>
        dsimp only at h
        refine ih (acc ++ [(k, .typed k v)]) sd2 m sd' h ?_
        intro p hp
        simp only [List.mem_append, List.mem_singleton] at hp
        rcases hp with hp | hp
        · exact hacc p hp
        · subst hp
          exact Or.inl ⟨v, rfl⟩
      | err e => exact absurd h (by simp)
      | undef => exact absurd h (by simp)

theorem fieldsCheckDefaults_ok_pres {V : Type}
    (Q : String × FVal V → Prop)
    (htyped : ∀ lit v, Q (lit, FVal.typed lit v)) :
    ∀ (fields : List (FieldDesc V)) (m m' : RecordVal V),
    fieldsCheckDefaults fields m = .ok m' →
    (∀ p ∈ m, Q p) → ∀ p ∈ m', Q p := by
  intro fields
  induction fields with
  | nil =>
    intro m m' h hm
    simp only [fieldsCheckDefaults, DRes.ok.injEq] at h
    subst h
    exact hm
  | cons f rest ih =>
    intro m m' h hm
    simp only [fieldsCheckDefaults] at h
    cases hdv : f.defaultVal with
    | some r =>
      rw [hdv] at h
      dsimp only at h
      by_cases hc : (m.map Prod.fst).contains f.literal = true
      · rw [if_pos hc] at h
        exact ih m m' h hm
      · rw [if_neg hc] at h
        cases r with
        | ok v =>
          refine ih _ m' h ?_
          intro p hp
          simp only [List.mem_append, List.mem_singleton] at hp
          rcases hp with hp | hp
          · exact hm p hp
          · subst hp
            exact htyped f.literal v
        | error e => exact absurd h (by simp)
    | none =>
      rw [hdv] at h
      dsimp only at h
      cases hmand : f.mandatory with
      | true =>
        rw [hmand] at h
        rw [if_pos rfl] at h
        by_cases hc : (m.map Prod.fst).contains f.literal = true
        · rw [if_pos hc] at h
          exact ih m m' h hm
        · rw [if_neg hc] at h
          exact absurd h (by simp)
      | false =>
        rw [hmand] at h
        rw [if_neg (by simp)] at h
        exact ih m m' h hm

theorem fieldsCheckDefaults_ok_present {V : Type} :
    ∀ (fields : List (FieldDesc V)) (m m' : RecordVal V),
    fieldsCheckDefaults fields m = .ok m' →
    (∀ x, x ∈ m.map Prod.fst → x ∈ m'.map Prod.fst) ∧
    (∀ f ∈ fields, (f.mandatory = true ∨ f.defaultVal.isSome = true) →
      f.literal ∈ m'.map Prod.fst) := by
  intro fields
  induction fields with
  | nil =>
    intro m m' h
    simp only [fieldsCheckDefaults, DRes.ok.injEq] at h
    subst h
    exact ⟨fun x hx => hx, by simp⟩
  | cons f rest ih =>
    intro m m' h
    simp only [fieldsCheckDefaults] at h
    cases hdv : f.defaultVal with
    | some r =>
      rw [hdv] at h
      dsimp only at h
      by_cases hc : (m.map Prod.fst).contains f.literal = true
      · rw [if_pos hc] at h
        obtain ⟨hmono, hpres⟩ := ih m m' h
        refine ⟨hmono, ?_⟩
        intro g hg _
        simp only [List.mem_cons] at hg
        rcases hg with hg | hg
        · subst hg
          exact hmono g.literal (by simpa using hc)
        · exact hpres g hg (by
            rcases (by simpa using hg : g ∈ rest) with _
            exact (by
              rcases ‹g.mandatory = true ∨ g.defaultVal.isSome = true› with h1 | h1
              · exact Or.inl h1
              · exact Or.inr h1))
      · rw [if_neg hc] at h
        cases r with
        | ok v =>
          obtain ⟨hmono, hpres⟩ := ih _ m' h
          constructor
          · intro x hx
            exact hmono x (by simp [hx])
          · intro g hg hgm
            simp only [List.mem_cons] at hg
            rcases hg with hg | hg
            · subst hg
              exact hmono g.literal (by simp)
            · exact hpres g hg hgm
        | error e => exact absurd h (by simp)
    | none =>
      rw [hdv] at h
      dsimp only at h
      cases hmand : f.mandatory with
      | true =>
        rw [hmand] at h
        rw [if_pos rfl] at h
        by_cases hc : (m.map Prod.fst).contains f.literal = true
        · rw [if_pos hc] at h
          obtain ⟨hmono, hpres⟩ := ih m m' h
          refine ⟨hmono, ?_⟩
          intro g hg hgm
          simp only [List.mem_cons] at hg
          rcases hg with hg | hg
          · subst hg
            exact hmono g.literal (by simpa using hc)
          · exact hpres g hg hgm
        · rw [if_neg hc] at h
          exact absurd h (by simp)
      | false =>
        rw [hmand] at h
        rw [if_neg (by simp)] at h
        obtain ⟨hmono, hpres⟩ := ih m m' h
        refine ⟨hmono, ?_⟩
        intro g hg hgm
        simp only [List.mem_cons] at hg
        rcases hg with hg | hg
        · subst hg
          rcases hgm with h1 | h1
          · rw [hmand] at h1; exact absurd h1 (by simp)
          · rw [hdv] at h1; exact absurd h1 (by simp)
        · exact hpres g hg hgm

/-- C10 counterexample: on a struct carrying the struct-level
`SALAD_ATTR_DEFAULT` attribute, the accessor of an optional field
with no field-level default has no `None` arm
(`codegen/structs.rs:127-131`), while the decode-time checks
(`check_field_value_iter`, field-level attribute) synthesize nothing
for it — so `{id: "y"}` decodes successfully with `opt` absent, and
the `opt` accessor on that successfully decoded record reaches the
`unreachable_unchecked` fallback, contradicting the claim. -/
theorem C10_counterexample_struct_default_getter :
    recordDecodeId [idField, optIntField] "id"
      (.map [(.str "id", .str "y")]) SeedData.new =
      (.ok [("id", FVal.typed "id" (PVal.s "y"))], ⟨["y"], []⟩)
    ∧ getterOutcome true optIntField [("id", FVal.typed "id" (PVal.s "y"))] =
        .unreachableBranch := by
  exact ⟨rfl, rfl⟩

/-- C10 (amended): a record value produced by a successful id-record
decode satisfies the shape invariant of its backing field map: every
entry stored under a declared field literal holds that field's
variant (modelled by the literal tag), and every mandatory or
field-level-defaulted field is present; consequently a generated
field accessor never reaches its `unreachable_unchecked` fallback on
the decoded record — EXCEPT for an accessor generated under the
struct-level default attribute for an optional field without a
field-level default that is absent from the input, which has no
`None` arm and does reach the fallback. -/
theorem C10_record_shape_invariant (V : Type) (structDefault : Bool)
    (fields : List (FieldDesc V))
    (idLit : String) (c : Content) (sd : SeedData) (m : RecordVal V)
    (sd' : SeedData)
    (h : recordDecodeId fields idLit c sd = (.ok m, sd')) :
    (∀ k fv, (k, fv) ∈ m → ∀ f ∈ fields, f.literal = k → ∃ v, fv = FVal.typed k v)
    ∧ (∀ f ∈ fields, (f.mandatory = true ∨ f.defaultVal.isSome = true) →
        f.literal ∈ m.map Prod.fst)
    ∧ (∀ f ∈ fields,
        (structDefault = false ∨ f.mandatory = true ∨ f.defaultVal.isSome = true ∨
          f.literal ∈ m.map Prod.fst) →
        getterOutcome structDefault f m ≠ .unreachableBranch) := by
  have hm1 : ∃ m1, m = sortByKey m1 ∧
      (∀ p ∈ m1, (∃ v, p.2 = FVal.typed p.1 v) ∨
        (findField fields p.1 = none ∧ ∃ a, p.2 = FVal.anyV a)) ∧
      (∀ f ∈ fields, (f.mandatory = true ∨ f.defaultVal.isSome = true) →
        f.literal ∈ m1.map Prod.fst) := by
    cases c with
    | map entries =>
      simp only [recordDecodeId] at h
      rcases hscan : recordIdScan idLit entries [] false sd with ⟨r1, sd1⟩
      rw [hscan] at h
      cases r1 with
      | ok mb =>
        rcases mb with ⟨cm, isId⟩
        dsimp only at h
        rcases hloop : recordFieldsLoop fields cm [] sd1 with ⟨r2, sd2⟩
        rw [hloop] at h
        cases r2 with
        | ok m0 =>
          dsimp only at h
          cases hdef : fieldsCheckDefaults fields m0 with
          | ok m1 =>
            rw [hdef] at h
            dsimp only at h
            injection h with h1 h2
            injection h1 with h1
            refine ⟨m1, h1.symm, ?_, ?_⟩
            · exact fieldsCheckDefaults_ok_pres _
                (fun lit v => Or.inl ⟨v, rfl⟩) fields m0 m1 hdef
                (recordFieldsLoop_ok_stored fields cm [] sd1 m0 sd2 hloop
                  (by intro p hp; exact absurd hp (by simp)))
            · exact (fieldsCheckDefaults_ok_present fields m0 m1 hdef).2
          | err e => rw [hdef] at h; exact absurd h (by simp)
          | undef => rw [hdef] at h; exact absurd h (by simp)
        | err e => exact absurd h (by simp)
        | undef => exact absurd h (by simp)
      | err e => exact absurd h (by simp)
      | undef => exact absurd h (by simp)
    | null => exact absurd h (by simp [recordDecodeId])
    | bool b => exact absurd h (by simp [recordDecodeId])
    | int n => exact absurd h (by simp [recordDecodeId])
    | float q => exact absurd h (by simp [recordDecodeId])
    | str s => exact absurd h (by simp [recordDecodeId])
    | seq s => exact absurd h (by simp [recordDecodeId])
  obtain ⟨m1, hmeq, hstored, hpresent⟩ := hm1
  subst hmeq
  have hTyped : ∀ k fv, (k, fv) ∈ sortByKey m1 → ∀ f ∈ fields, f.literal = k →
      ∃ v, fv = FVal.typed k v := by
    intro k fv hmem f hf hlit
    have hmem1 : (k, fv) ∈ m1 := (mem_sortByKey (k, fv) m1).mp hmem
    rcases hstored (k, fv) hmem1 with ⟨v, hv⟩ | ⟨hnone, _⟩
    · exact ⟨v, hv⟩
    · exfalso
      have := List.find?_eq_none.mp hnone f hf
      simp [hlit] at this
  have hPres : ∀ f ∈ fields, (f.mandatory = true ∨ f.defaultVal.isSome = true) →
      f.literal ∈ (sortByKey m1).map Prod.fst := by
    intro f hf hreq
    exact (keys_sortByKey f.literal m1).mpr (hpresent f hf hreq)
  refine ⟨hTyped, hPres, ?_⟩
  intro f hf hcond
  unfold getterOutcome
  cases hget : recordGet (sortByKey m1) f.literal with
  | some fv =>
    obtain ⟨q, hqfind⟩ : ∃ q, (sortByKey m1).find? (fun p => p.1 == f.literal) = some q := by
      unfold recordGet at hget
      cases hfq : (sortByKey m1).find? (fun p => p.1 == f.literal) with
      | none => rw [hfq] at hget; exact absurd hget (by simp)
      | some q => exact ⟨q, rfl⟩
    have hqm : q ∈ sortByKey m1 := List.mem_of_find?_eq_some hqfind
    have hq1 : q.1 = f.literal := by
      have := List.find?_some hqfind
      simpa using this
    have hfv : q.2 = fv := by
      unfold recordGet at hget
      rw [hqfind] at hget
      simpa using hget
    have hqmem : (q.1, q.2) ∈ sortByKey m1 := by
      rw [Prod.mk.eta]
      exact hqm
    obtain ⟨v, hv⟩ := hTyped q.1 q.2 hqmem f hf hq1.symm
    rw [hfv] at hv
    rw [hv, hq1]
    dsimp only
    rw [if_pos rfl]
    simp
  | none =>
    dsimp only
    have habs : ¬ f.literal ∈ (sortByKey m1).map Prod.fst := by
      intro hin
      unfold recordGet at hget
      cases hfq : (sortByKey m1).find? (fun p => p.1 == f.literal) with
      | some q => rw [hfq] at hget; exact absurd hget (by simp)
      | none =>
        obtain ⟨p, hp, hp1⟩ := List.mem_map.mp hin
        have := List.find?_eq_none.mp hfq p hp
        simp [hp1] at this
    have hmand : f.mandatory = false := by
      cases hm : f.mandatory with
      | false => rfl
      | true => exact absurd (hPres f hf (Or.inl hm)) habs
    have hdv : f.defaultVal.isSome = false := by
      cases hd : f.defaultVal.isSome with
      | false => rfl
      | true => exact absurd (hPres f hf (Or.inr hd)) habs
    have hsd : structDefault = false := by
      rcases hcond with h' | h' | h' | h'
      · exact h'
      · rw [hmand] at h'; exact absurd h' (by simp)
      · rw [hdv] at h'; exact absurd h' (by simp)
      · exact absurd h' habs
    rw [hmand, hsd]
    simp

/-- Witness for C10 (amended): the decoded `{id: "q"}` record on a
struct without the struct-level default attribute — the `id`
accessor does not reach the unreachable branch. -/
theorem C10_record_shape_invariant_witness :
    getterOutcome false idField [("id", FVal.typed "id" (PVal.s "q"))] ≠
      GetterRes.unreachableBranch := by
  exact (C10_record_shape_invariant PVal false [idField] "id"
    (.map [(.str "id", .str "q")]) SeedData.new
    [("id", FVal.typed "id" (PVal.s "q"))] ⟨["q"], []⟩ rfl).2.2 idField
    (by simp) (Or.inl rfl)
